import Mathlib

/-!
The error stack of `adevinta/errors`.

A shallow embedding of the Go package `errors` (`errors.go`, `methods.go`,
`types.go`) and the properties of its specification.

Modelling conventions.

* A Go `string`, like a `[]byte`, is a `GoString`: any sequence of bytes, valid
  UTF-8 or not. A string literal of the source is the UTF-8 encoding of its
  text (`utf8`, inserted as a coercion). A Go `int` is an `Int`, with the single
  arithmetic operation of the package (`ID + 1`) wrapped to 64 bits.
* A non-nil value of the interface `error` that is not an error stack is kept
  as `GoError`: the identity of the instance and the text its `Error()` method
  returns. Interface equality `==` on such values is equality of `GoError`, so
  two instances with the same text and different identities are different.
* The dynamic values a constructor or a predicate of the package can receive
  are the constructors of `Value`. A `*ErrorStack` is non-nil and is kept as
  the state of the stack it points to; the stack a constructor returns is the
  state behind the pointer it returns.
* A run-time panic is the result `none`.
* The library `encoding/json` is not part of the package. `UnmarshalJSON`
  takes what `json.Unmarshal` answers as a parameter, so what is proved of it
  holds for any decoder. `jsonMarshal` and `jsonUnmarshal` model the library on
  the two records the package hands it. The encoder writes compact text with
  HTML escaping on, the escape `\ufffd` for every byte of a string that begins
  no valid UTF-8 encoding, and `\b`, `\f`, `\n`, `\r`, `\t` for these five
  control characters. The decoder follows the JSON grammar, the nesting limit
  of the library and its matching of keys to fields. A JSON text is kept as
  its characters; its bytes are their UTF-8 encoding.
-/

set_option linter.dupNamespace false
set_option maxRecDepth 100000

namespace Errors

/-! ## Go strings -/

/-- A byte. -/
abbrev Byte := Fin 256

/-- A Go `string`, and a `[]byte`: any sequence of bytes, valid UTF-8 or not. -/
abbrev GoString := List Byte

/-- The byte with the value `n` (taken modulo 256). -/
def byte (n : Nat) : Byte := ⟨n % 256, Nat.mod_lt n (by decide)⟩

/-- The UTF-8 encoding of one character. -/
def encodeChar (c : Char) : List Byte :=
  if c.toNat < 0x80 then [byte c.toNat]
  else if c.toNat < 0x800 then [byte (0xC0 + c.toNat / 64), byte (0x80 + c.toNat % 64)]
  else if c.toNat < 0x10000 then
    [byte (0xE0 + c.toNat / 4096), byte (0x80 + c.toNat / 64 % 64), byte (0x80 + c.toNat % 64)]
  else
    [byte (0xF0 + c.toNat / 262144), byte (0x80 + c.toNat / 4096 % 64),
      byte (0x80 + c.toNat / 64 % 64), byte (0x80 + c.toNat % 64)]

/-- The UTF-8 encoding of a text. -/
def utf8Encode : List Char → GoString
  | [] => []
  | c :: cs => encodeChar c ++ utf8Encode cs

/-- The bytes of a string literal of the source, and of a text `encoding/json`
hands back. -/
def utf8 (s : String) : GoString := utf8Encode s.data

instance : Coe String GoString := ⟨utf8⟩

/-- Go `utf8.DecodeRuneInString`: the rune at the head of the bytes and its
size; `none` stands for `(RuneError, 1)`, the answer to a byte that begins no
valid encoding. -/
def decodeRune : List Byte → Option (Char × Nat)
  | [] => none
  | b0 :: rest =>
    if b0.val < 0x80 then some (Char.ofNat b0.val, 1)
    else if b0.val < 0xC2 ∨ 0xF4 < b0.val then none
    else
      match rest with
      | [] => none
      | b1 :: rest1 =>
        if b1.val < (if b0.val = 0xE0 then 0xA0 else if b0.val = 0xF0 then 0x90 else 0x80) ∨
            (if b0.val = 0xED then 0x9F else if b0.val = 0xF4 then 0x8F else 0xBF) < b1.val then
          none
        else if b0.val < 0xE0 then some (Char.ofNat (b0.val % 32 * 64 + b1.val % 64), 2)
        else
          match rest1 with
          | [] => none
          | b2 :: rest2 =>
            if b2.val < 0x80 ∨ 0xBF < b2.val then none
            else if b0.val < 0xF0 then
              some (Char.ofNat ((b0.val % 16 * 64 + b1.val % 64) * 64 + b2.val % 64), 3)
            else
              match rest2 with
              | [] => none
              | b3 :: _ =>
                if b3.val < 0x80 ∨ 0xBF < b3.val then none
                else
                  some (Char.ofNat
                    (((b0.val % 8 * 64 + b1.val % 64) * 64 + b2.val % 64) * 64 + b3.val % 64), 4)

/-- The runes of a Go string as a `range` loop or `encoding/json` reads them:
`none` for each byte that begins no valid encoding. The first argument counts
the bytes still to skip of the rune just read. -/
def runesFrom : Nat → List Byte → List (Option Char)
  | _, [] => []
  | skip + 1, _ :: rest => runesFrom skip rest
  | 0, b :: rest =>
    match decodeRune (b :: rest) with
    | some (c, size) => some c :: runesFrom (size - 1) rest
    | none => none :: runesFrom 0 rest

def runes (s : GoString) : List (Option Char) := runesFrom 0 s

/-- The text of a Go string coerced to valid UTF-8: U+FFFD for each byte that
begins no valid encoding. -/
def decodeText (s : GoString) : List Char := (runes s).map fun r => r.getD (Char.ofNat 0xFFFD)

def toText (s : GoString) : String := String.mk (decodeText s)

/-- The Go string coerced to valid UTF-8. -/
def toValidUTF8 (s : GoString) : GoString := utf8 (toText s)

/-- The Go string is the UTF-8 encoding of a text. -/
def validUTF8 (s : GoString) : Prop := ∃ text : String, s = utf8 text

/-- The parts one after the other. -/
def concatAll (parts : List GoString) : GoString :=
  parts.foldl (fun r s => r ++ s) ""

/-! ## Values -/

/-- A non-nil `error` instance: its identity and the text of `Error()`. -/
structure GoError where
  ref : Nat
  text : GoString
deriving DecidableEq, Repr

/-- The record `Error` of `errors.go`; `Kind` is an interface, `none` when nil. -/
structure Error where
  ID : Int
  Message : GoString
  Kind : Option GoError
  HTTPStatusCode : Int
deriving DecidableEq, Repr

/-- The record `ErrorStack` of `errors.go`. -/
structure ErrorStack where
  Errors : List Error
deriving DecidableEq, Repr

/-- The dynamic value behind an `interface{}` or `error` argument. -/
inductive Value where
  /-- a non-nil `*ErrorStack`, with the stack it points to -/
  | stackPtr (s : ErrorStack)
  /-- an `ErrorStack` passed by value -/
  | stackVal (s : ErrorStack)
  /-- any other non-nil `error` -/
  | error (e : GoError)
  /-- a plain `string` -/
  | string (s : GoString)
  /-- anything else, the nil interface included -/
  | other
deriving DecidableEq, Repr

/-! ## `types.go` -/

def ErrDatabase : GoError := ⟨0, "Database"⟩
def ErrInternal : GoError := ⟨1, "Internal"⟩
def ErrForbidden : GoError := ⟨2, "Forbidden"⟩
def ErrUnauthorized : GoError := ⟨3, "Unauthorized"⟩
def ErrNotFound : GoError := ⟨4, "Record not found"⟩
def ErrDuplicated : GoError := ⟨5, "Duplicated record"⟩
def ErrCreate : GoError := ⟨6, "Cannot create record"⟩
def ErrUpdate : GoError := ⟨7, "Cannot update record"⟩
def ErrDelete : GoError := ⟨8, "Cannot delete record"⟩
def ErrValidation : GoError := ⟨9, "Validation"⟩
def ErrAssertion : GoError := ⟨10, "Assertion"⟩

/-! ## `net/http` status constants used by the package -/

def StatusBadRequest : Int := 400
def StatusUnauthorized : Int := 401
def StatusForbidden : Int := 403
def StatusNotFound : Int := 404
def StatusMethodNotAllowed : Int := 405
def StatusConflict : Int := 409
def StatusUnprocessableEntity : Int := 422
def StatusInternalServerError : Int := 500

/-! ## `errors.go`: accessors -/

/-- Go's `int` addition on a 64-bit platform: the sum wrapped to `[-2^63, 2^63)`. -/
def intAdd (a b : Int) : Int := (a + b + 2 ^ 63) % 2 ^ 64 - 2 ^ 63

/-- Go `func (e *ErrorStack) StatusCode() int`. -/
def ErrorStack.StatusCode (e : ErrorStack) : Int :=
  match e.Errors.getLast? with
  | none => StatusInternalServerError
  | some last => last.HTTPStatusCode

/-- Go `func (e Error) Error() string`. -/
def Error.Error (e : Error) : GoString := e.Message

/-- Go `func (e ErrorStack) Error() string`. -/
def ErrorStack.Error (e : ErrorStack) : GoString :=
  match e.Errors.getLast? with
  | some last => last.Error
  | none => ""

/-- The type assertion `err.(error)` followed by `Error()`: `*ErrorStack`,
`ErrorStack` and every other error satisfy the interface. -/
def Value.errorText? : Value → Option GoString
  | .stackPtr s => some s.Error
  | .stackVal s => some s.Error
  | .error e => some e.text
  | .string _ => none
  | .other => none

/-- The loop of `interfaceToStr` over the resources:
`preffix = fmt.Sprintf("%s[%s]", preffix, r)`. -/
def resourceTags (resources : List GoString) : GoString :=
  resources.foldl (fun preffix r => preffix ++ "[" ++ r ++ "]") ""

/-- Go `func interfaceToStr(err interface{}, resources ...string) string`. -/
def interfaceToStr (err : Value) (resources : List GoString) : GoString :=
  let errMsg := ""
  let errMsg := match err.errorText? with
    | some t => t
    | none => errMsg
  let errMsg := match err with
    | .string s => s
    | _ => errMsg
  if resources.length > 0 then
    resourceTags resources ++ " " ++ errMsg
  else
    errMsg

/-- Go `func newErrorStack(obj interface{}, newError Error) *ErrorStack`: the stack
the returned pointer points to; `none` when indexing `Errors[len-1]` panics. -/
def newErrorStack (obj : Value) (newError : Error) : Option ErrorStack :=
  match obj with
  | .stackPtr errorStack =>
    match errorStack.Errors.getLast? with
    | none => none
    | some last =>
      some { Errors := errorStack.Errors ++ [{ newError with ID := intAdd last.ID 1 }] }
  | _ => some { Errors := [] ++ [{ newError with ID := 0 }] }

/-! ## `methods.go`: the twelve constructors

The `ID` of the record literal is Go's zero value; `newErrorStack` overwrites it. -/

def Default (e : Value) : Option ErrorStack :=
  newErrorStack e
    { ID := 0, Kind := some ErrInternal, Message := interfaceToStr e [],
      HTTPStatusCode := StatusInternalServerError }

def Database (e : Value) : Option ErrorStack :=
  newErrorStack e
    { ID := 0, Kind := some ErrDatabase, Message := interfaceToStr e [],
      HTTPStatusCode := StatusInternalServerError }

def Forbidden (e : Value) : Option ErrorStack :=
  newErrorStack e
    { ID := 0, Kind := some ErrForbidden, Message := interfaceToStr e [],
      HTTPStatusCode := StatusForbidden }

def Unauthorized (e : Value) : Option ErrorStack :=
  newErrorStack e
    { ID := 0, Kind := some ErrUnauthorized, Message := interfaceToStr e [],
      HTTPStatusCode := StatusUnauthorized }

def NotFound (e : Value) : Option ErrorStack :=
  newErrorStack e
    { ID := 0, Kind := some ErrNotFound, Message := interfaceToStr e [],
      HTTPStatusCode := StatusNotFound }

def Create (e : Value) (extras : List GoString) : Option ErrorStack :=
  newErrorStack e
    { ID := 0, Kind := some ErrCreate, Message := interfaceToStr e extras,
      HTTPStatusCode := StatusInternalServerError }

def Update (e : Value) : Option ErrorStack :=
  newErrorStack e
    { ID := 0, Kind := some ErrUpdate, Message := interfaceToStr e [],
      HTTPStatusCode := StatusInternalServerError }

def Delete (e : Value) : Option ErrorStack :=
  newErrorStack e
    { ID := 0, Kind := some ErrDelete, Message := interfaceToStr e [],
      HTTPStatusCode := StatusInternalServerError }

def Validation (e : Value) (extras : List GoString) : Option ErrorStack :=
  newErrorStack e
    { ID := 0, Kind := some ErrValidation, Message := interfaceToStr e extras,
      HTTPStatusCode := StatusUnprocessableEntity }

def Duplicated (e : Value) : Option ErrorStack :=
  newErrorStack e
    { ID := 0, Kind := some ErrDuplicated, Message := interfaceToStr e [],
      HTTPStatusCode := StatusConflict }

def Assertion (e : Value) : Option ErrorStack :=
  newErrorStack e
    { ID := 0, Kind := some ErrAssertion, Message := interfaceToStr e [],
      HTTPStatusCode := StatusBadRequest }

def MethodNotAllowed (e : Value) : Option ErrorStack :=
  newErrorStack e
    { ID := 0, Kind := some ErrAssertion, Message := interfaceToStr e [],
      HTTPStatusCode := StatusMethodNotAllowed }

/-! ## `errors.go`: kind inspection -/

/-- Go `func IsKind(err error, kind error) bool`. -/
def IsKind (err : Value) (kind : Option GoError) : Bool :=
  match err with
  | .stackPtr e =>
    match e.Errors.getLast? with
    | some last => last.Kind == kind
    | none => false
  | _ => false

/-- Go `func IsRootOfKind(err error, kind error) bool`. -/
def IsRootOfKind (err : Value) (kind : Option GoError) : Bool :=
  match err with
  | .stackPtr e =>
    match e.Errors.head? with
    | some root => root.Kind == kind
    | none => false
  | _ => false

/-! ## The constructors as one family

`Ctor` names the twelve public constructors, `Ctor.run` calls the one named
(the resources reach `Create` and `Validation` only, the others have no such
parameter). `Ctor.status` and `Ctor.kind` are the table of the specification. -/

inductive Ctor where
  | Default | Database | Forbidden | Unauthorized | NotFound | Create
  | Update | Delete | Validation | Duplicated | Assertion | MethodNotAllowed
deriving DecidableEq, Repr

def Ctor.run (k : Ctor) (cause : Value) (resources : List GoString) : Option ErrorStack :=
  match k with
  | .Default => Errors.Default cause
  | .Database => Errors.Database cause
  | .Forbidden => Errors.Forbidden cause
  | .Unauthorized => Errors.Unauthorized cause
  | .NotFound => Errors.NotFound cause
  | .Create => Errors.Create cause resources
  | .Update => Errors.Update cause
  | .Delete => Errors.Delete cause
  | .Validation => Errors.Validation cause resources
  | .Duplicated => Errors.Duplicated cause
  | .Assertion => Errors.Assertion cause
  | .MethodNotAllowed => Errors.MethodNotAllowed cause

/-- The status column of the specification's table. -/
def Ctor.status : Ctor → Int
  | .Default => 500 | .Database => 500 | .Forbidden => 403 | .Unauthorized => 401
  | .NotFound => 404 | .Create => 500 | .Update => 500 | .Delete => 500
  | .Validation => 422 | .Duplicated => 409 | .Assertion => 400 | .MethodNotAllowed => 405

/-- The kind tag the specification gives each constructor. -/
def Ctor.kind : Ctor → GoError
  | .Default => ErrInternal | .Database => ErrDatabase | .Forbidden => ErrForbidden
  | .Unauthorized => ErrUnauthorized | .NotFound => ErrNotFound | .Create => ErrCreate
  | .Update => ErrUpdate | .Delete => ErrDelete | .Validation => ErrValidation
  | .Duplicated => ErrDuplicated | .Assertion => ErrAssertion
  | .MethodNotAllowed => ErrAssertion

/-- The message a constructor gives its new entry: the resources count for
`Create` and `Validation` only. -/
def Ctor.message (k : Ctor) (cause : Value) (resources : List GoString) : GoString :=
  match k with
  | .Create => interfaceToStr cause resources
  | .Validation => interfaceToStr cause resources
  | _ => interfaceToStr cause []

/-- The causes a constructor wraps without a panic: everything but a pointer
to a stack with no entries. -/
def Value.wrappable : Value → Bool
  | .stackPtr s => !s.Errors.isEmpty
  | _ => true

/-- Whether the value is a pointer to an error stack, the one shape the type
assertion `obj.(*ErrorStack)` accepts. -/
def Value.isStackPtr : Value → Bool
  | .stackPtr _ => true
  | _ => false

/-- The normalised text of a cause, in the specification's words: the text of
`Error()` when the cause is an error, the cause itself when it is a plain
string, the empty string for anything else. -/
def Value.normalised : Value → GoString
  | .stackPtr s => s.Error
  | .stackVal s => s.Error
  | .error e => e.text
  | .string s => s
  | .other => ""

/-- The bracketed resources `[r1][r2]...[rn]`, in the order given. -/
def bracketed (resources : List GoString) : GoString :=
  concatAll (resources.map fun r => "[" ++ r ++ "]")

/-- The chain `Kn(...K2(K1(c))...)`: `first` is applied to the cause, every
later constructor to the pointer the one before returned. -/
def wrapChain (cause : Value) (first : Ctor × List GoString)
    (rest : List (Ctor × List GoString)) : Option ErrorStack :=
  rest.foldl (fun acc kr => acc.bind fun s => kr.1.run (.stackPtr s) kr.2)
    (first.1.run cause first.2)

/-! ## `encoding/json`: values and their compact text -/

/-- A JSON value. A number written as an integer literal is `int`; a number
with a fraction or an exponent is `real` and keeps its literal. -/
inductive Json where
  | null
  | bool (b : Bool)
  | int (i : Int)
  | real (literal : List Char)
  | str (s : String)
  | arr (items : List Json)
  | obj (members : List (String × Json))

/-- The decimal digit of `n < 10`, the lower-case hexadecimal digit of `n < 16`. -/
def hexDigit (n : Nat) : Char :=
  if n < 10 then Char.ofNat (48 + n) else Char.ofNat (87 + n)

def natDigitsAux : Nat → Nat → List Char → List Char
  | 0, _, acc => acc
  | fuel + 1, n, acc =>
    if n < 10 then hexDigit n :: acc
    else natDigitsAux fuel (n / 10) (hexDigit (n % 10) :: acc)

/-- The decimal digits of a natural number, most significant first. -/
def natDigits (n : Nat) : List Char := natDigitsAux (n + 1) n []

/-- The text `strconv` gives an `int`. -/
def renderInt : Int → List Char
  | .ofNat n => natDigits n
  | .negSucc n => '-' :: natDigits (n + 1)

/-- The escape of one character inside a JSON string, as `encoding/json`
writes it with HTML escaping on. -/
def escapeChar (c : Char) : List Char :=
  if c = '\x22' then ['\x5c', '\x22']
  else if c = '\x5c' then ['\x5c', '\x5c']
  else if c = '\x08' then ['\x5c', 'b']
  else if c = '\x0c' then ['\x5c', 'f']
  else if c = '\n' then ['\x5c', 'n']
  else if c = '\r' then ['\x5c', 'r']
  else if c = '\t' then ['\x5c', 't']
  else if c.toNat < 32 ∨ c = '<' ∨ c = '>' ∨ c = '&' then
    ['\x5c', 'u', '0', '0', hexDigit (c.toNat / 16), hexDigit (c.toNat % 16)]
  else if c = Char.ofNat 0x2028 then ['\x5c', 'u', '2', '0', '2', '8']
  else if c = Char.ofNat 0x2029 then ['\x5c', 'u', '2', '0', '2', '9']
  else [c]

def escapeChars : List Char → List Char
  | [] => []
  | c :: cs => escapeChar c ++ escapeChars cs

/-- The string literal of a text: a key of an object. -/
def quote (s : String) : List Char := '\x22' :: (escapeChars s.data ++ ['\x22'])

/-- The escape of one rune of a Go string: `\ufffd` for a byte that begins no
valid UTF-8 encoding. -/
def escapeRune : Option Char → List Char
  | some c => escapeChar c
  | none => ['\x5c', 'u', 'f', 'f', 'f', 'd']

def escapeRunes : List (Option Char) → List Char
  | [] => []
  | r :: rs => escapeRune r ++ escapeRunes rs

/-- The string literal `encoding/json` writes for a Go string. -/
def quoteGo (s : GoString) : List Char := '\x22' :: (escapeRunes (runes s) ++ ['\x22'])

/-- The items separated by commas. -/
def commaSep : List (List Char) → List Char
  | [] => []
  | [x] => x
  | x :: y :: rest => x ++ ',' :: commaSep (y :: rest)

/-- One member `"key":value` of an object. -/
def member (key : String) (value : List Char) : List Char := quote key ++ ':' :: value

def encodeObject (members : List (String × List Char)) : List Char :=
  '\x7b' :: (commaSep (members.map fun kv => member kv.1 kv.2) ++ ['\x7d'])

def encodeArray (items : List (List Char)) : List Char :=
  '[' :: (commaSep items ++ [']'])

/-- A Go value of the kinds the package hands to `json.Marshal`: an `int`, a
`string`, a slice, a record as the list of its tagged fields. -/
inductive GoValue where
  | int (i : Int)
  | str (s : GoString)
  | arr (items : List GoValue)
  | obj (fields : List (String × GoValue))

mutual
/-- The compact text `json.Marshal` writes for a Go value. -/
def GoValue.text (v : GoValue) : List Char :=
  match v with
  | .str s => quoteGo s
  | .int i => renderInt i
  | .arr items => encodeArray (GoValue.texts items)
  | .obj fields => encodeObject (GoValue.fieldTexts fields)
def GoValue.texts : List GoValue → List (List Char)
  | [] => []
  | v :: vs => v.text :: GoValue.texts vs
def GoValue.fieldTexts : List (String × GoValue) → List (String × List Char)
  | [] => []
  | (k, v) :: fs => (k, v.text) :: GoValue.fieldTexts fs
end

mutual
/-- The JSON value a Go value stands for: its strings coerced to valid UTF-8. -/
def GoValue.json (v : GoValue) : Json :=
  match v with
  | .str s => .str (toText s)
  | .int i => .int i
  | .arr items => .arr (GoValue.jsons items)
  | .obj fields => .obj (GoValue.fieldJsons fields)
def GoValue.jsons : List GoValue → List Json
  | [] => []
  | v :: vs => v.json :: GoValue.jsons vs
def GoValue.fieldJsons : List (String × GoValue) → List (String × Json)
  | [] => []
  | (k, v) :: fs => (k, v.json) :: GoValue.fieldJsons fs
end

/-! ## `encoding/json`: reading a text -/

def isSpace (c : Char) : Bool := c = ' ' || c = '\t' || c = '\n' || c = '\r'

def skipSpace : List Char → List Char
  | [] => []
  | c :: cs => if isSpace c then skipSpace cs else c :: cs

def isDigit (c : Char) : Bool := 48 ≤ c.toNat && c.toNat ≤ 57

/-- The value of a hexadecimal digit. -/
def hexVal? (c : Char) : Option Nat :=
  if 48 ≤ c.toNat ∧ c.toNat ≤ 57 then some (c.toNat - 48)
  else if 97 ≤ c.toNat ∧ c.toNat ≤ 102 then some (c.toNat - 87)
  else if 65 ≤ c.toNat ∧ c.toNat ≤ 70 then some (c.toNat - 55)
  else none

/-- Four hexadecimal digits, the operand of a `\u` escape. -/
def hex4? : List Char → Option (Nat × List Char)
  | a :: b :: c :: d :: cs =>
    match hexVal? a, hexVal? b, hexVal? c, hexVal? d with
    | some a, some b, some c, some d => some (((a * 16 + b) * 16 + c) * 16 + d, cs)
    | _, _, _, _ => none
  | _ => none

/-- The low half of a surrogate pair, when the text goes on with one. -/
def lowSurrogate? : List Char → Option (Nat × List Char)
  | '\x5c' :: 'u' :: cs =>
    match hex4? cs with
    | some (lo, rest) => if 0xDC00 ≤ lo ∧ lo < 0xE000 then some (lo, rest) else none
    | none => none
  | _ => none

/-- The characters of a string literal after its opening quote, unescaped, and
the text after its closing quote. A lone surrogate escape reads as U+FFFD. -/
def parseStringBody : Nat → List Char → Option (List Char × List Char)
  | 0, _ => none
  | _ + 1, [] => none
  | fuel + 1, c :: cs =>
    if c = '\x22' then some ([], cs)
    else if c = '\x5c' then
      match cs with
      | [] => none
      | e :: cs2 =>
        if e = 'u' then
          match hex4? cs2 with
          | none => none
          | some (u, cs3) =>
            if 0xD800 ≤ u ∧ u < 0xE000 then
              match (if u < 0xDC00 then lowSurrogate? cs3 else none) with
              | some (lo, cs4) =>
                (parseStringBody fuel cs4).map fun r =>
                  (Char.ofNat (0x10000 + (u - 0xD800) * 0x400 + (lo - 0xDC00)) :: r.1, r.2)
              | none =>
                (parseStringBody fuel cs3).map fun r => (Char.ofNat 0xFFFD :: r.1, r.2)
            else (parseStringBody fuel cs3).map fun r => (Char.ofNat u :: r.1, r.2)
        else
          let plain : Option Char :=
            if e = '\x22' then some '\x22'
            else if e = '\x5c' then some '\x5c'
            else if e = '/' then some '/'
            else if e = 'b' then some (Char.ofNat 8)
            else if e = 'f' then some (Char.ofNat 12)
            else if e = 'n' then some '\n'
            else if e = 'r' then some '\r'
            else if e = 't' then some '\t'
            else none
          match plain with
          | none => none
          | some p => (parseStringBody fuel cs2).map fun r => (p :: r.1, r.2)
    else if c.toNat < 32 then none
    else (parseStringBody fuel cs).map fun r => (c :: r.1, r.2)

/-- The leading run of decimal digits and what follows it. -/
def spanDigits : List Char → List Char × List Char
  | [] => ([], [])
  | c :: cs => if isDigit c then ((spanDigits cs).1.cons c, (spanDigits cs).2) else ([], c :: cs)

/-- The number the digits write, most significant first. -/
def digitsValue (ds : List Char) : Nat := ds.foldl (fun acc d => acc * 10 + (d.toNat - 48)) 0

/-- The integer part of a number literal: `0`, or a digit run not starting with `0`. -/
def parseIntPart : List Char → Option (List Char × List Char)
  | [] => none
  | c :: cs =>
    if c = '0' then some (['0'], cs)
    else if isDigit c then some (spanDigits (c :: cs))
    else none

/-- The optional fraction of a number literal; `none` when a `.` has no digit. -/
def parseFraction : List Char → Option (List Char × List Char)
  | [] => some ([], [])
  | c :: cs =>
    if c = '.' then
      match spanDigits cs with
      | ([], _) => none
      | (ds, rest) => some ('.' :: ds, rest)
    else some ([], c :: cs)

/-- The optional exponent of a number literal. -/
def parseExponent : List Char → Option (List Char × List Char)
  | [] => some ([], [])
  | e :: cs =>
    if e = 'e' ∨ e = 'E' then
      let signed : List Char × List Char :=
        match cs with
        | s :: cs2 => if s = '+' ∨ s = '-' then ([s], cs2) else ([], cs)
        | [] => ([], [])
      match spanDigits signed.2 with
      | ([], _) => none
      | (ds, rest) => some (e :: (signed.1 ++ ds), rest)
    else some ([], e :: cs)

/-- The optional minus sign of a number literal. -/
def parseSign : List Char → Bool × List Char
  | [] => (false, [])
  | c :: cs => if c = '-' then (true, cs) else (false, c :: cs)

/-- A number literal. -/
def parseNumber (cs : List Char) : Option (Json × List Char) :=
  let signed : Bool × List Char := parseSign cs
  match parseIntPart signed.2 with
  | none => none
  | some (ds, r1) =>
    match parseFraction r1 with
    | none => none
    | some (frac, r2) =>
      match parseExponent r2 with
      | none => none
      | some (exp, r3) =>
        if frac.isEmpty && exp.isEmpty then
          some (.int (if signed.1 then -(digitsValue ds : Int) else (digitsValue ds : Int)), r3)
        else
          some (.real ((if signed.1 then ['-'] else []) ++ ds ++ frac ++ exp), r3)

/-- The nesting limit of the decoder: more open arrays and objects than this is
an error (`exceeded max depth`). -/
def maxNestingDepth : Nat := 10000

mutual
/-- A JSON value at the head of the text (no leading space), and the rest;
`depth` counts the arrays and objects open around it. -/
def parseValue : Nat → Nat → List Char → Option (Json × List Char)
  | 0, _, _ => none
  | _ + 1, _, [] => none
  | fuel + 1, depth, c :: cs1 =>
    if c = '\x22' then
      (parseStringBody (cs1.length + 1) cs1).map fun r => (.str (String.mk r.1), r.2)
    else if c = '[' then
      if maxNestingDepth < depth + 1 then none
      else
        match skipSpace cs1 with
        | [] => none
        | d :: rest =>
          if d = ']' then some (.arr [], rest)
          else (parseItems fuel (depth + 1) (d :: rest)).map fun r => (.arr r.1, r.2)
    else if c = '\x7b' then
      if maxNestingDepth < depth + 1 then none
      else
        match skipSpace cs1 with
        | [] => none
        | d :: rest =>
          if d = '\x7d' then some (.obj [], rest)
          else (parseMembers fuel (depth + 1) (d :: rest)).map fun r => (.obj r.1, r.2)
    else if c = 't' then
      match cs1 with
      | 'r' :: 'u' :: 'e' :: rest => some (.bool true, rest)
      | _ => none
    else if c = 'f' then
      match cs1 with
      | 'a' :: 'l' :: 's' :: 'e' :: rest => some (.bool false, rest)
      | _ => none
    else if c = 'n' then
      match cs1 with
      | 'u' :: 'l' :: 'l' :: rest => some (.null, rest)
      | _ => none
    else parseNumber (c :: cs1)
/-- The items of an array from its first item to its closing bracket. -/
def parseItems : Nat → Nat → List Char → Option (List Json × List Char)
  | 0, _, _ => none
  | fuel + 1, depth, cs =>
    match parseValue fuel depth cs with
    | none => none
    | some (v, r) =>
      match skipSpace r with
      | [] => none
      | d :: r2 =>
        if d = ',' then (parseItems fuel depth (skipSpace r2)).map fun t => (v :: t.1, t.2)
        else if d = ']' then some ([v], r2)
        else none
/-- The members of an object from its first key to its closing brace. -/
def parseMembers : Nat → Nat → List Char → Option (List (String × Json) × List Char)
  | 0, _, _ => none
  | _ + 1, _, [] => none
  | fuel + 1, depth, c :: cs1 =>
    if c = '\x22' then
      match parseStringBody (cs1.length + 1) cs1 with
      | none => none
      | some (key, r) =>
        match skipSpace r with
        | [] => none
        | d :: r1 =>
          if d = ':' then
            match parseValue fuel depth (skipSpace r1) with
            | none => none
            | some (v, r2) =>
              match skipSpace r2 with
              | [] => none
              | d2 :: r3 =>
                if d2 = ',' then
                  (parseMembers fuel depth (skipSpace r3)).map fun t =>
                    ((String.mk key, v) :: t.1, t.2)
                else if d2 = '\x7d' then some ([(String.mk key, v)], r3)
                else none
          else none
    else none
end

/-- A whole text as one JSON value, spaces allowed around it. -/
def parseJson (data : List Char) : Option Json :=
  match parseValue (data.length + 1) 0 (skipSpace data) with
  | none => none
  | some (v, rest) => if (skipSpace rest).isEmpty then some v else none

mutual
/-- The fuel `parseValue` needs to read the text of a Go value back. -/
def GoValue.cost : GoValue → Nat
  | .arr items => 1 + GoValue.costs items
  | .obj fields => 1 + GoValue.fieldCosts fields
  | _ => 1
def GoValue.costs : List GoValue → Nat
  | [] => 0
  | v :: vs => 1 + v.cost + GoValue.costs vs
def GoValue.fieldCosts : List (String × GoValue) → Nat
  | [] => 0
  | (_, v) :: fs => 1 + v.cost + GoValue.fieldCosts fs
end

mutual
/-- How deep the slices and records of a Go value are nested. -/
def GoValue.nesting : GoValue → Nat
  | .arr items => 1 + GoValue.nestings items
  | .obj fields => 1 + GoValue.fieldNestings fields
  | _ => 0
def GoValue.nestings : List GoValue → Nat
  | [] => 0
  | v :: vs => max v.nesting (GoValue.nestings vs)
def GoValue.fieldNestings : List (String × GoValue) → Nat
  | [] => 0
  | (_, v) :: fs => max v.nesting (GoValue.fieldNestings fs)
end

/-- The text after a value inside an array or an object, or the end of the text. -/
def Delimited (rest : List Char) : Prop :=
  rest = [] ∨ ∃ c t, rest = c :: t ∧ (c = ',' ∨ c = ']' ∨ c = '\x7d')

/-! ## `encoding/json`: decoding into the records of the package

A JSON `null` leaves the field as it is, a key is matched to a field name
without regard to case, a later duplicate key decodes on top of what an earlier
one left, a key that matches no field is skipped, and a value of the wrong type
is an error. -/

/-- The payload record `errorStackPayload` of `errors.go`. -/
structure errorStackPayload where
  Code : Int
  Err : GoString
  /-- the field `Type` of the source (a reserved word here) -/
  Typ : GoString
  Stack : List Error
deriving DecidableEq, Repr

/-- The case folding under which a key matches a field name. -/
def foldChar (c : Char) : Char :=
  if 97 ≤ c.toNat ∧ c.toNat ≤ 122 then Char.ofNat (c.toNat - 32)
  else if c = Char.ofNat 0x17F then 'S'
  else if c = Char.ofNat 0x212A then 'K'
  else c

def keyMatches (key name : String) : Bool :=
  key.data.map foldChar = name.data.map foldChar

/-- The range of a Go `int` on a 64-bit platform. -/
def inInt64 (i : Int) : Bool := -2 ^ 63 ≤ i && i < 2 ^ 63

def decodeInt (current : Int) : Json → Option Int
  | .null => some current
  | .int i => if inInt64 i then some i else none
  | _ => none

def decodeString (current : GoString) : Json → Option GoString
  | .null => some current
  | .str s => some (utf8 s)
  | _ => none

/-- A field of interface type `error` takes `null` only. -/
def decodeKind : Json → Option (Option GoError)
  | .null => some none
  | _ => none

def decodeErrorMember (e : Error) (kv : String × Json) : Option Error :=
  if keyMatches kv.1 "ID" then (decodeInt e.ID kv.2).map fun v => { e with ID := v }
  else if keyMatches kv.1 "Message" then
    (decodeString e.Message kv.2).map fun v => { e with Message := v }
  else if keyMatches kv.1 "Kind" then (decodeKind kv.2).map fun v => { e with Kind := v }
  else if keyMatches kv.1 "HTTPStatusCode" then
    (decodeInt e.HTTPStatusCode kv.2).map fun v => { e with HTTPStatusCode := v }
  else some e

def decodeMembers {α : Type} (step : α → String × Json → Option α) :
    α → List (String × Json) → Option α
  | a, [] => some a
  | a, kv :: rest =>
    match step a kv with
    | none => none
    | some a2 => decodeMembers step a2 rest

/-- The zero value of `Error`. -/
def zeroError : Error := { ID := 0, Message := "", Kind := none, HTTPStatusCode := 0 }

/-- An element of `parent_errors` decoded into the `Error` the slice holds at
its place (`Error` has no JSON tags and no `UnmarshalJSON`). -/
def decodeError (target : Error) : Json → Option Error
  | .null => some target
  | .obj members => decodeMembers decodeErrorMember target members
  | _ => none

/-- The items of an array decoded in turn into the elements of the backing
array of the slice, and into zero values where it has none. -/
def decodeErrors : List Error → List Json → Option (List Error)
  | _, [] => some []
  | backing, j :: js =>
    match decodeError (backing.headD zeroError) j, decodeErrors backing.tail js with
    | some e, some es => some (e :: es)
    | _, _ => none

/-- The field `Stack` decoded from a value, over the elements of its backing
array: the new elements of the slice and the elements left behind them. `null`
and the empty array leave a slice with no backing array. -/
def decodeStack (backing : List Error) : Json → Option (List Error × List Error)
  | .null => some ([], [])
  | .arr [] => some ([], [])
  | .arr items => (decodeErrors backing items).map fun es => (es, backing.drop items.length)
  | _ => none

/-- The payload while its members are decoded: the record, and the elements of
the backing array of `Stack` beyond its length. -/
structure payloadState where
  payload : errorStackPayload
  spare : List Error
deriving DecidableEq, Repr

def decodePayloadMember (st : payloadState) (kv : String × Json) : Option payloadState :=
  if keyMatches kv.1 "code" then
    (decodeInt st.payload.Code kv.2).map fun v =>
      { st with payload := { st.payload with Code := v } }
  else if keyMatches kv.1 "error" then
    (decodeString st.payload.Err kv.2).map fun v =>
      { st with payload := { st.payload with Err := v } }
  else if keyMatches kv.1 "type" then
    (decodeString st.payload.Typ kv.2).map fun v =>
      { st with payload := { st.payload with Typ := v } }
  else if keyMatches kv.1 "parent_errors" then
    (decodeStack (st.payload.Stack ++ st.spare) kv.2).map fun v =>
      { payload := { st.payload with Stack := v.1 }, spare := v.2 }
  else some st

def decodePayload : Json → Option errorStackPayload
  | .null => some { Code := 0, Err := "", Typ := "", Stack := [] }
  | .obj members =>
    (decodeMembers decodePayloadMember
      { payload := { Code := 0, Err := "", Typ := "", Stack := [] }, spare := [] }
      members).map fun st => st.payload
  | _ => none

/-- Go `json.Unmarshal(data, payload)` for a fresh `*errorStackPayload`: the
payload read, or `none` when the call returns an error. The bytes are read as
UTF-8; a byte that begins no valid encoding reads as U+FFFD inside a string
and is a syntax error outside one. -/
def jsonUnmarshal (data : GoString) : Option errorStackPayload :=
  (parseJson (decodeText data)).bind decodePayload

/-! ## `errors.go`: serialisation -/

/-- Go `func (e *Error) MarshalJSON() ([]byte, error)`: `json.Marshal` of the
anonymous record with the tags `id`, `code`, `error`, `type`; `none` when
`e.Kind.Error()` panics on a nil kind. -/
def Error.MarshalJSON (e : Errors.Error) : Option (List Char × Option GoError) :=
  match e.Kind with
  | none => none
  | some kind =>
    some (encodeObject [("id", renderInt e.ID), ("code", renderInt e.HTTPStatusCode),
      ("error", quoteGo e.Message), ("type", quoteGo kind.text)], none)

/-- The elements of a `[]Error` as `json.Marshal` writes them: each element of
a slice is addressable, so each goes through `(*Error).MarshalJSON`. -/
def marshalErrors : List Error → Option (List (List Char))
  | [] => some []
  | e :: es =>
    match e.MarshalJSON, marshalErrors es with
    | some (b, _), some bs => some (b :: bs)
    | _, _ => none

/-- Go `json.Marshal` of an `errorStackPayload`: the tagged fields in order,
`parent_errors` left out when the slice is empty (`omitempty`). -/
def jsonMarshal (p : errorStackPayload) : Option (List Char × Option GoError) :=
  match marshalErrors p.Stack with
  | none => none
  | some parents =>
    some (encodeObject
      ([("code", renderInt p.Code), ("error", quoteGo p.Err), ("type", quoteGo p.Typ)] ++
        (if p.Stack.isEmpty then [] else [("parent_errors", encodeArray parents)])), none)

/-- Go `func (e *ErrorStack) MarshalJSON() ([]byte, error)`. -/
def ErrorStack.MarshalJSON (e : ErrorStack) : Option (GoString × Option GoError) :=
  match e.Errors.getLast? with
  | some lastError =>
    match lastError.Kind with
    | none => none
    | some kind =>
      (jsonMarshal
        { Code := lastError.HTTPStatusCode, Err := lastError.Message, Typ := kind.text,
          Stack := e.Errors.dropLast }).map fun r => (utf8Encode r.1, r.2)
  | none => some ("", none)

/-- Go `func (e *ErrorStack) UnmarshalJSON(data []byte) error`, over the
result `unmarshal` of `json.Unmarshal(data, payload)`: the receiver after the
call and the error returned (`none` for nil). -/
def ErrorStack.UnmarshalJSON (unmarshal : GoString → Option errorStackPayload)
    (e : ErrorStack) (data : GoString) : Option (ErrorStack × Option ErrorStack) :=
  match unmarshal data with
  | none => (Default (.string data)).map fun err => (e, some err)
  | some payload =>
    let err : Option ErrorStack :=
      if payload.Code = StatusForbidden then Forbidden (.string "")
      else if payload.Code = StatusUnauthorized then Unauthorized (.string "")
      else if payload.Code = StatusNotFound then NotFound (.string "")
      else if payload.Code = StatusUnprocessableEntity then Validation (.string "") []
      else if payload.Code = StatusConflict then Duplicated (.string "")
      else if payload.Code = StatusBadRequest then Assertion (.string "")
      else if payload.Code = StatusMethodNotAllowed then MethodNotAllowed (.string "")
      else Default (.string "")
    match err with
    | none => none
    | some err =>
      match err.Errors with
      | [] => none
      | first :: rest => some ({ Errors := { first with Message := payload.Err } :: rest }, none)

/-- The reverse lookup of the specification: status code to kind and status. -/
def reverseLookup (code : Int) : GoError × Int :=
  if code = 403 then (ErrForbidden, 403)
  else if code = 401 then (ErrUnauthorized, 401)
  else if code = 404 then (ErrNotFound, 404)
  else if code = 422 then (ErrValidation, 422)
  else if code = 409 then (ErrDuplicated, 409)
  else if code = 400 then (ErrAssertion, 400)
  else if code = 405 then (ErrAssertion, 405)
  else (ErrInternal, 500)

/-- The text of an entry's kind, empty for a nil kind. -/
def Error.kindText (e : Errors.Error) : GoString :=
  match e.Kind with
  | some kind => kind.text
  | none => ""

/-- An entry as the specification renders it among `parent_errors`: `id`,
`code`, `error` and `type`, the two strings coerced to valid UTF-8. -/
def entryJson (e : Error) : Json :=
  .obj [("id", .int e.ID), ("code", .int e.HTTPStatusCode), ("error", .str (toText e.Message)),
    ("type", .str (toText e.kindText))]

/-- The object the specification gives for a stack with the entries
`parents ++ [last]`: `code`, `error` and `type` of the last entry, and
`parent_errors` with the earlier entries unless there is none. -/
def stackJson (parents : List Error) (last : Error) : Json :=
  .obj ([("code", .int last.HTTPStatusCode), ("error", .str (toText last.Message)),
      ("type", .str (toText last.kindText))] ++
    (if parents = [] then [] else [("parent_errors", .arr (parents.map entryJson))]))

/-- The Go value of an entry among `parent_errors`: the anonymous record of
`(*Error).MarshalJSON`. -/
def entryValue (e : Error) : GoValue :=
  .obj [("id", .int e.ID), ("code", .int e.HTTPStatusCode), ("error", .str e.Message),
    ("type", .str e.kindText)]

/-- The Go value `MarshalJSON` writes for the entries `parents ++ [last]`. -/
def stackValue (parents : List Error) (last : Error) : GoValue :=
  .obj ([("code", .int last.HTTPStatusCode), ("error", .str last.Message),
      ("type", .str last.kindText)] ++
    (if parents = [] then [] else [("parent_errors", .arr (parents.map entryValue))]))

/-- The keys of an object. -/
def Json.keys : Json → List String
  | .obj members => members.map fun kv => kv.1
  | _ => []

/-- The stacks built through the public constructors: a constructor applied to
a cause that is not a stack pointer, or to the pointer a constructor returned. -/
inductive Built : ErrorStack → Prop where
  | fresh (k : Ctor) (cause : Value) (rs : List GoString) (st : ErrorStack) :
      cause.isStackPtr = false → k.run cause rs = some st → Built st
  | wrap (k : Ctor) (s : ErrorStack) (rs : List GoString) (st : ErrorStack) :
      Built s → k.run (.stackPtr s) rs = some st → Built st

/-- The stacks reachable from causes that are not stack pointers by the public
operations: a constructor applied to such a cause, a constructor applied to the
pointer to a reachable stack, and a successful `UnmarshalJSON` (one that
returns nil), whatever the decoder answered and whatever the receiver held. -/
inductive Reachable : ErrorStack → Prop where
  | fresh (k : Ctor) (cause : Value) (rs : List GoString) (st : ErrorStack) :
      cause.isStackPtr = false → k.run cause rs = some st → Reachable st
  | wrap (k : Ctor) (s : ErrorStack) (rs : List GoString) (st : ErrorStack) :
      Reachable s → k.run (.stackPtr s) rs = some st → Reachable st
  | unmarshal (unmarshal : GoString → Option errorStackPayload) (recv : ErrorStack)
      (data : GoString) (st : ErrorStack) :
      ErrorStack.UnmarshalJSON unmarshal recv data = some (st, none) → Reachable st

/-- The message of the last entry of the stack a constructor returned. -/
def lastMessage? (result : Option ErrorStack) : Option GoString :=
  result.bind fun st => st.Errors.getLast?.map fun e => e.Message

/-- The eleven kind tags of `types.go`. -/
def fixedTags : List GoError :=
  [ErrDatabase, ErrInternal, ErrForbidden, ErrUnauthorized, ErrNotFound, ErrDuplicated,
    ErrCreate, ErrUpdate, ErrDelete, ErrValidation, ErrAssertion]

/-- The status codes the table of the specification allows a kind tag. -/
def tableStatuses (kind : GoError) : List Int :=
  if kind = ErrInternal ∨ kind = ErrDatabase ∨ kind = ErrCreate ∨ kind = ErrUpdate ∨
      kind = ErrDelete then [500]
  else if kind = ErrForbidden then [403]
  else if kind = ErrUnauthorized then [401]
  else if kind = ErrNotFound then [404]
  else if kind = ErrValidation then [422]
  else if kind = ErrDuplicated then [409]
  else if kind = ErrAssertion then [400, 405]
  else []

/-- The kind tags no status code leads back to in `UnmarshalJSON`. -/
def lostTags : List GoError := [ErrDatabase, ErrCreate, ErrUpdate, ErrDelete]

/-- The argument of `newErrorStack(obj, newError)` after the call has returned
`result`: the function writes to its argument only through a `*ErrorStack`
(`errorStack.Errors = append(errorStack.Errors, newError)`, and the pointer is
what it returns); in the other branch it appends to the new `result` alone. -/
def causeAfter (obj : Value) (result : ErrorStack) : Value :=
  match obj with
  | .stackPtr _ => .stackPtr result
  | v => v

/-! ## Theorems -/

/-! ### Go strings and UTF-8 -/

theorem utf8_empty : utf8 "" = [] := rfl

theorem byte_val (n : Nat) (h : n < 256) : (byte n).val = n := Nat.mod_eq_of_lt h

theorem char_range (c : Char) : c.toNat < 0xD800 ∨ (0xDFFF < c.toNat ∧ c.toNat < 0x110000) := by
  have := c.valid
  simp only [Char.toNat, UInt32.isValidChar, Nat.isValidChar] at this ⊢
  omega

theorem decodeRune_encodeChar (c : Char) (rest : List Byte) :
    decodeRune (encodeChar c ++ rest) = some (c, (encodeChar c).length) := by
  have hr := char_range c
  unfold encodeChar
  split_ifs with h1 h2 h3
  · simp only [List.singleton_append, decodeRune, byte_val c.toNat (by omega), h1, if_true,
      Char.ofNat_toNat, List.length_singleton]
  · have e0 := byte_val (0xC0 + c.toNat / 64) (by omega)
    have e1 := byte_val (0x80 + c.toNat % 64) (by omega)
    simp only [List.cons_append, List.nil_append, decodeRune, e0, e1]
    rw [if_neg (by omega), if_neg (by omega), if_neg (by split_ifs <;> omega), if_pos (by omega)]
    have : (192 + c.toNat / 64) % 32 * 64 + (128 + c.toNat % 64) % 64 = c.toNat := by omega
    simp only [this, Char.ofNat_toNat, List.length_cons, List.length_nil]
  · have e0 := byte_val (0xE0 + c.toNat / 4096) (by omega)
    have e1 := byte_val (0x80 + c.toNat / 64 % 64) (by omega)
    have e2 := byte_val (0x80 + c.toNat % 64) (by omega)
    simp only [List.cons_append, List.nil_append, decodeRune, e0, e1, e2]
    rw [if_neg (by omega), if_neg (by omega), if_neg (by split_ifs <;> omega), if_neg (by omega),
      if_neg (by omega), if_pos (by omega)]
    have : ((224 + c.toNat / 4096) % 16 * 64 + (128 + c.toNat / 64 % 64) % 64) * 64
        + (128 + c.toNat % 64) % 64 = c.toNat := by omega
    simp only [this, Char.ofNat_toNat, List.length_cons, List.length_nil]
  · have e0 := byte_val (0xF0 + c.toNat / 262144) (by omega)
    have e1 := byte_val (0x80 + c.toNat / 4096 % 64) (by omega)
    have e2 := byte_val (0x80 + c.toNat / 64 % 64) (by omega)
    have e3 := byte_val (0x80 + c.toNat % 64) (by omega)
    simp only [List.cons_append, List.nil_append, decodeRune, e0, e1, e2, e3]
    rw [if_neg (by omega), if_neg (by omega), if_neg (by split_ifs <;> omega), if_neg (by omega),
      if_neg (by omega), if_neg (by omega), if_neg (by omega)]
    have : (((240 + c.toNat / 262144) % 8 * 64 + (128 + c.toNat / 4096 % 64) % 64) * 64
        + (128 + c.toNat / 64 % 64) % 64) * 64 + (128 + c.toNat % 64) % 64 = c.toNat := by omega
    simp only [this, Char.ofNat_toNat, List.length_cons, List.length_nil]

theorem encodeChar_length (c : Char) : 1 ≤ (encodeChar c).length := by
  unfold encodeChar
  split_ifs <;> simp

theorem runesFrom_skip (xs rest : List Byte) :
    runesFrom xs.length (xs ++ rest) = runesFrom 0 rest := by
  induction xs with
  | nil => rfl
  | cons x xs ih => simpa [runesFrom] using ih

theorem runes_utf8Encode (cs : List Char) (rest : List Byte) :
    runesFrom 0 (utf8Encode cs ++ rest) = cs.map some ++ runesFrom 0 rest := by
  induction cs with
  | nil => rfl
  | cons c cs ih =>
    have hd := decodeRune_encodeChar c (utf8Encode cs ++ rest)
    have hl := encodeChar_length c
    obtain ⟨b, bs, hb⟩ : ∃ b bs, encodeChar c = b :: bs := by
      cases h : encodeChar c with
      | nil => rw [h] at hl; simp at hl
      | cons b bs => exact ⟨b, bs, rfl⟩
    simp only [utf8Encode, List.append_assoc, List.map_cons, List.cons_append]
    rw [hb] at hd ⊢
    simp only [List.cons_append] at hd ⊢
    simp only [runesFrom, hd, List.length_cons, Nat.add_sub_cancel]
    rw [runesFrom_skip, ih]

theorem decodeText_utf8Encode (cs : List Char) : decodeText (utf8Encode cs) = cs := by
  have := runes_utf8Encode cs []
  simp only [List.append_nil] at this
  rw [decodeText, runes, this]
  simp only [runesFrom, List.append_nil, List.map_map]
  clear this
  induction cs with
  | nil => rfl
  | cons c cs ih => simp [ih]

theorem toText_utf8 (s : String) : toText (utf8 s) = s := by
  simp [toText, utf8, decodeText_utf8Encode]

theorem toValidUTF8_of_valid (s : GoString) (h : validUTF8 s) : toValidUTF8 s = s := by
  obtain ⟨t, rfl⟩ := h
  simp [toValidUTF8, toText_utf8]


theorem validUTF8_toValidUTF8 (s : GoString) : validUTF8 (toValidUTF8 s) :=
  ⟨toText s, rfl⟩

theorem validUTF8_iff (s : GoString) : validUTF8 s ↔ toValidUTF8 s = s :=
  ⟨toValidUTF8_of_valid s, fun h => h ▸ validUTF8_toValidUTF8 s⟩

/-! ### Constructors, kinds and messages -/

theorem nil_or_snoc {α : Type} (es : List α) : es = [] ∨ ∃ es0 l, es = es0 ++ [l] := by
  rcases List.eq_nil_or_concat es with h | ⟨es0, l, h⟩
  · exact Or.inl h
  · exact Or.inr ⟨es0, l, by rw [h, List.concat_eq_append]⟩

theorem run_eq_newErrorStack (k : Ctor) (cause : Value) (rs : List GoString) :
    k.run cause rs = newErrorStack cause
      { ID := 0, Message := k.message cause rs, Kind := some k.kind,
        HTTPStatusCode := k.status } := by
  cases k <;> rfl

theorem newErrorStack_fresh (obj : Value) (e : Error) (h : obj.isStackPtr = false) :
    newErrorStack obj e = some { Errors := [{ e with ID := 0 }] } := by
  cases obj <;> first | rfl | simp [Value.isStackPtr] at h

theorem newErrorStack_append (es : List Error) (l e : Error) :
    newErrorStack (.stackPtr { Errors := es ++ [l] }) e
      = some { Errors := es ++ [l] ++ [{ e with ID := intAdd l.ID 1 }] } := by
  simp [newErrorStack]

theorem statusCode_append (es : List Error) (l : Error) :
    ErrorStack.StatusCode { Errors := es ++ [l] } = l.HTTPStatusCode := by
  simp [ErrorStack.StatusCode]

/-- Every wrappable cause is a non-pointer or a pointer to `es ++ [l]`. -/
theorem wrappable_cases (cause : Value) (h : cause.wrappable = true) :
    cause.isStackPtr = false ∨ ∃ es l, cause = .stackPtr { Errors := es ++ [l] } := by
  cases cause with
  | stackPtr s =>
    right
    obtain ⟨es⟩ := s
    rcases nil_or_snoc es with hnil | ⟨es0, l, hcat⟩
    · subst hnil; simp [Value.wrappable] at h
    · exact ⟨es0, l, by rw [hcat]⟩
  | _ => left; rfl

/-- C1: every constructor, on a string, a non-stack error or a pointer to a
non-empty stack, returns a stack whose `StatusCode()` is the table value and
whose last entry carries the constructor's kind tag, whatever the cause. -/
theorem C1_status_and_kind_by_constructor (k : Ctor) (cause : Value) (rs : List GoString)
    (h : cause.wrappable = true) :
    ∃ st last, k.run cause rs = some st ∧ st.StatusCode = k.status ∧
      st.Errors.getLast? = some last ∧ last.Kind = some k.kind := by
  rw [run_eq_newErrorStack]
  rcases wrappable_cases cause h with hn | ⟨es, l, rfl⟩
  · rw [newErrorStack_fresh _ _ hn]
    exact ⟨_, _, rfl, rfl, rfl, rfl⟩
  · rw [newErrorStack_append]
    exact ⟨_, _, rfl, statusCode_append _ _, List.getLast?_concat _, rfl⟩

theorem C1_witness :
    (Value.stackPtr { Errors := [⟨0, "missing", some ErrNotFound, 404⟩] }).wrappable = true ∧
    ∃ st last, Ctor.MethodNotAllowed.run
        (.stackPtr { Errors := [⟨0, "missing", some ErrNotFound, 404⟩] }) [] = some st ∧
      st.StatusCode = 405 ∧ st.Errors.getLast? = some last ∧ last.Kind = some ErrAssertion :=
  ⟨rfl, C1_status_and_kind_by_constructor .MethodNotAllowed
    (.stackPtr { Errors := [⟨0, "missing", some ErrNotFound, 404⟩] }) [] rfl⟩

/-- C2: wrapping a pointer to a non-empty stack returns the same entries, in
the same order, followed by one new entry whose ID is Go's `last.ID + 1` (the
successor, unless `last.ID` is the largest 64-bit integer); wrapping anything
that is not a stack pointer returns exactly one entry, with ID 0. -/
theorem C2_wrap_appends_one_entry (k : Ctor) (rs : List GoString) :
    (∀ s last, s.Errors.getLast? = some last →
      ∃ st new, k.run (.stackPtr s) rs = some st ∧ st.Errors = s.Errors ++ [new] ∧
        st.Errors.length = s.Errors.length + 1 ∧
        (∀ i, i < s.Errors.length → st.Errors[i]? = s.Errors[i]?) ∧
        st.Errors.getLast? = some new ∧ new.ID = intAdd last.ID 1 ∧
        (-2 ^ 63 ≤ last.ID → last.ID < 2 ^ 63 - 1 → new.ID = last.ID + 1)) ∧
    (∀ cause, cause.isStackPtr = false →
      ∃ st new, k.run cause rs = some st ∧ st.Errors = [new] ∧ new.ID = 0) := by
  constructor
  · intro s last hlast
    obtain ⟨es⟩ := s
    obtain ⟨es0, rfl⟩ : ∃ es0, es = es0 ++ [last] := by
      rcases nil_or_snoc es with hnil | ⟨es0, l, hcat⟩
      · subst hnil; simp at hlast
      · subst hcat
        simp at hlast
        exact ⟨es0, by rw [hlast]⟩
    rw [run_eq_newErrorStack, newErrorStack_append]
    refine ⟨_, _, rfl, rfl, by simp, ?_, List.getLast?_concat _, rfl, ?_⟩
    · intro i hi
      exact List.getElem?_append_left hi
    · intro h1 h2
      show intAdd last.ID 1 = last.ID + 1
      unfold intAdd
      omega
  · intro cause hc
    rw [run_eq_newErrorStack, newErrorStack_fresh _ _ hc]
    exact ⟨_, _, rfl, rfl, rfl⟩

theorem C2_witness :
    (ErrorStack.mk [⟨0, "missing", some ErrNotFound, 404⟩]).Errors.getLast?
      = some ⟨0, "missing", some ErrNotFound, 404⟩ ∧
    ∃ st new, Ctor.run .Forbidden (.stackPtr ⟨[⟨0, "missing", some ErrNotFound, 404⟩]⟩) []
        = some st ∧
      st.Errors = (ErrorStack.mk [⟨0, "missing", some ErrNotFound, 404⟩]).Errors ++ [new] ∧
      st.Errors.length = (ErrorStack.mk [⟨0, "missing", some ErrNotFound, 404⟩]).Errors.length + 1 ∧
      (∀ i, i < (ErrorStack.mk [⟨0, "missing", some ErrNotFound, 404⟩]).Errors.length →
        st.Errors[i]? = (ErrorStack.mk [⟨0, "missing", some ErrNotFound, 404⟩]).Errors[i]?) ∧
      st.Errors.getLast? = some new ∧
      new.ID = intAdd (Error.mk 0 "missing" (some ErrNotFound) 404).ID 1 ∧
      (-2 ^ 63 ≤ (Error.mk 0 "missing" (some ErrNotFound) 404).ID →
        (Error.mk 0 "missing" (some ErrNotFound) 404).ID < 2 ^ 63 - 1 →
        new.ID = (Error.mk 0 "missing" (some ErrNotFound) 404).ID + 1) :=
  ⟨rfl, (C2_wrap_appends_one_entry .Forbidden []).1
    ⟨[⟨0, "missing", some ErrNotFound, 404⟩]⟩ ⟨0, "missing", some ErrNotFound, 404⟩ rfl⟩

/-- C3 (failing input): every constructor panics on a pointer to a stack with
no entries, where `newErrorStack` indexes `Errors[len(Errors)-1]`. -/
theorem C3_empty_stack_pointer_panics (k : Ctor) (rs : List GoString) :
    k.run (.stackPtr { Errors := [] }) rs = none := by
  cases k <;> rfl

theorem isKind_stackPtr_concat (es : List Error) (l : Error) (k : Option GoError) :
    IsKind (.stackPtr { Errors := es ++ [l] }) k = (l.Kind == k) := by
  simp [IsKind]

theorem isRootOfKind_stackPtr_cons (r : Error) (es : List Error) (k : Option GoError) :
    IsRootOfKind (.stackPtr { Errors := r :: es }) k = (r.Kind == k) := by
  simp [IsRootOfKind]

/-- C4: `IsKind(err, k)` holds exactly when `err` is a pointer to an error stack
that has entries and whose last entry's kind is the instance `k`. It is false
for a non-stack error and for the empty stack, it does not change when the
messages of the entries change, and it is false for another instance with the
same text as the last entry's kind. -/
theorem C4_isKind_characterisation :
    (∀ err k, IsKind err k = true ↔
      ∃ s last, err = .stackPtr s ∧ s.Errors ≠ [] ∧ s.Errors.getLast? = some last ∧
        last.Kind = k) ∧
    (∀ e k, IsKind (.error e) k = false) ∧
    (∀ k, IsKind (.stackPtr { Errors := [] }) k = false) ∧
    (∀ (s : ErrorStack) (f : Error → GoString) k,
      IsKind (.stackPtr { Errors := s.Errors.map fun e => { e with Message := f e } }) k
        = IsKind (.stackPtr s) k) ∧
    (∀ (s : ErrorStack) (last : Error) (k k2 : GoError), s.Errors.getLast? = some last →
      last.Kind = some k → k2.text = k.text → k2.ref ≠ k.ref →
      IsKind (.stackPtr s) (some k2) = false) := by
  refine ⟨?_, fun _ _ => rfl, fun _ => rfl, ?_, ?_⟩
  · intro err k
    constructor
    · intro h
      cases err with
      | stackPtr s =>
        obtain ⟨es⟩ := s
        rcases nil_or_snoc es with hnil | ⟨es0, l, hcat⟩
        · subst hnil; simp [IsKind] at h
        · subst hcat
          rw [isKind_stackPtr_concat] at h
          exact ⟨_, l, rfl, by simp, List.getLast?_concat _, by simpa using h⟩
      | _ => simp [IsKind] at h
    · rintro ⟨s, last, rfl, -, hlast, hk⟩
      simp [IsKind, hlast, hk]
  · intro s f k
    obtain ⟨es⟩ := s
    rcases nil_or_snoc es with hnil | ⟨es0, l, hcat⟩
    · subst hnil; rfl
    · subst hcat
      simp [IsKind]
  · intro s last k k2 hlast hk htext href
    simp only [IsKind, hlast, hk]
    simp only [beq_eq_false_iff_ne, ne_eq, Option.some.injEq]
    intro h
    exact href (by rw [h])

theorem C4_witness :
    (ErrorStack.mk [⟨0, "x", some ErrNotFound, 404⟩]).Errors.getLast?
        = some ⟨0, "x", some ErrNotFound, 404⟩ ∧
      (Error.mk 0 "x" (some ErrNotFound) 404).Kind = some ErrNotFound ∧
      (GoError.mk 99 "Record not found").text = ErrNotFound.text ∧
      (GoError.mk 99 "Record not found").ref ≠ ErrNotFound.ref ∧
      IsKind (.stackPtr ⟨[⟨0, "x", some ErrNotFound, 404⟩]⟩)
        (some (GoError.mk 99 "Record not found")) = false :=
  ⟨rfl, rfl, rfl, by decide,
    C4_isKind_characterisation.2.2.2.2 ⟨[⟨0, "x", some ErrNotFound, 404⟩]⟩
      ⟨0, "x", some ErrNotFound, 404⟩ ErrNotFound (GoError.mk 99 "Record not found")
      rfl rfl rfl (by decide)⟩

theorem wrapChain_snoc (cause : Value) (first : Ctor × List GoString)
    (rest : List (Ctor × List GoString)) (kr : Ctor × List GoString) :
    wrapChain cause first (rest ++ [kr])
      = (wrapChain cause first rest).bind fun s => kr.1.run (.stackPtr s) kr.2 := by
  simp [wrapChain, List.foldl_append]

/-- The shape of a chain of wraps over a cause that is not a stack pointer: the
root entry carries the first constructor's kind and the last entry the last
constructor's. -/
theorem wrapChain_shape (cause : Value) (first : Ctor × List GoString)
    (rest : List (Ctor × List GoString)) (hc : cause.isStackPtr = false) :
    ∃ root es last, wrapChain cause first rest = some { Errors := root :: es } ∧
      root.Kind = some first.1.kind ∧ (root :: es).getLast? = some last ∧
      ∀ kn, (first :: rest).getLast? = some kn → last.Kind = some kn.1.kind := by
  induction rest using List.reverseRecOn with
  | nil =>
    have hrun : wrapChain cause first [] = some { Errors :=
        [⟨0, first.1.message cause first.2, some first.1.kind, first.1.status⟩] } := by
      show first.1.run cause first.2 = _
      rw [run_eq_newErrorStack, newErrorStack_fresh _ _ hc]
    refine ⟨_, [], _, hrun, rfl, rfl, ?_⟩
    intro kn hkn
    simp at hkn
    subst hkn
    rfl
  | append_singleton rest kr ih =>
    obtain ⟨root, es, last, hrun, hroot, hlast, -⟩ := ih
    obtain ⟨es0, hes⟩ : ∃ es0, root :: es = es0 ++ [last] := by
      rcases nil_or_snoc (root :: es) with hnil | ⟨es0, l, hcat⟩
      · simp at hnil
      · rw [hcat] at hlast ⊢
        simp at hlast
        exact ⟨es0, by rw [hlast]⟩
    obtain ⟨ne, hne, hrun2⟩ : ∃ ne : Error, ne.Kind = some kr.1.kind ∧
        wrapChain cause first (rest ++ [kr]) = some { Errors := root :: (es ++ [ne]) } := by
      refine ⟨⟨intAdd last.ID 1, kr.1.message (.stackPtr ⟨root :: es⟩) kr.2, some kr.1.kind,
          kr.1.status⟩, rfl, ?_⟩
      rw [wrapChain_snoc, hrun, Option.some_bind, run_eq_newErrorStack, hes,
        newErrorStack_append, ← hes]
      rfl
    refine ⟨root, es ++ [ne], ne, hrun2, hroot, ?_, ?_⟩
    · rw [← List.cons_append]
      exact List.getLast?_concat _
    · intro kn hkn
      rw [← List.cons_append, List.getLast?_concat] at hkn
      cases hkn
      exact hne

/-- C5: `IsRootOfKind(err, k)` holds exactly when `err` is a pointer to an error
stack that has entries and whose first entry's kind is `k`; and for a cause
that is not a stack pointer and constructors `K1, ..., Kn` applied in turn, the
root of the result is of `K1`'s kind while `IsKind` holds exactly for `Kn`'s
kind, as for `Forbidden(NotFound("missing"))`. -/
theorem C5_root_kind_stable_under_wrapping :
    (∀ err k, IsRootOfKind err k = true ↔
      ∃ s root, err = .stackPtr s ∧ s.Errors ≠ [] ∧ s.Errors.head? = some root ∧
        root.Kind = k) ∧
    (∀ cause first rest kn, cause.isStackPtr = false →
      (first :: rest).getLast? = some kn →
      ∃ st, wrapChain cause first rest = some st ∧
        IsRootOfKind (.stackPtr st) (some first.1.kind) = true ∧
        ∀ k, IsKind (.stackPtr st) k = true ↔ k = some kn.1.kind) ∧
    (∃ st, (NotFound (.string "missing")).bind (fun s => Forbidden (.stackPtr s)) = some st ∧
      IsRootOfKind (.stackPtr st) (some ErrNotFound) = true ∧
      IsKind (.stackPtr st) (some ErrNotFound) = false ∧
      IsKind (.stackPtr st) (some ErrForbidden) = true) := by
  refine ⟨?_, ?_, ⟨_, rfl, by decide, by decide, by decide⟩⟩
  · intro err k
    constructor
    · intro h
      cases err with
      | stackPtr s =>
        obtain ⟨es⟩ := s
        cases es with
        | nil => simp [IsRootOfKind] at h
        | cons r es =>
          rw [isRootOfKind_stackPtr_cons] at h
          exact ⟨_, r, rfl, by simp, rfl, by simpa using h⟩
      | _ => simp [IsRootOfKind] at h
    · rintro ⟨s, root, rfl, -, hroot, hk⟩
      simp [IsRootOfKind, hroot, hk]
  · intro cause first rest kn hc hkn
    obtain ⟨root, es, last, hrun, hroot, hlast, hkind⟩ := wrapChain_shape cause first rest hc
    refine ⟨_, hrun, ?_, ?_⟩
    · rw [isRootOfKind_stackPtr_cons, hroot]
      simp
    · intro k
      simp only [IsKind, hlast, hkind kn hkn]
      constructor
      · intro h
        exact (by simpa using h : some kn.1.kind = k).symm
      · intro h
        simp [h]

theorem C5_witness :
    (Value.string "missing").isStackPtr = false ∧
    ((Ctor.NotFound, ([] : List GoString)) :: [(Ctor.Forbidden, [])]).getLast?
      = some (Ctor.Forbidden, []) ∧
    ∃ st, wrapChain (.string "missing") (.NotFound, []) [(.Forbidden, [])] = some st ∧
      IsRootOfKind (.stackPtr st) (some ErrNotFound) = true ∧
      ∀ k, IsKind (.stackPtr st) k = true ↔ k = some ErrForbidden :=
  ⟨rfl, rfl, C5_root_kind_stable_under_wrapping.2.1 (.string "missing") (.NotFound, [])
    [(.Forbidden, [])] (.Forbidden, []) rfl rfl⟩

theorem resourceTags_eq_bracketed (rs : List GoString) : resourceTags rs = bracketed rs := by
  unfold resourceTags bracketed concatAll
  rw [List.foldl_map]
  congr 1
  funext p r
  simp only [List.append_assoc]

theorem interfaceToStr_nil (c : Value) : interfaceToStr c [] = c.normalised := by
  cases c <;> rfl

theorem interfaceToStr_cons (c : Value) (r : GoString) (rs : List GoString) :
    interfaceToStr c (r :: rs) = bracketed (r :: rs) ++ " " ++ c.normalised := by
  rw [← resourceTags_eq_bracketed]
  cases c <;> simp [interfaceToStr, Value.errorText?, Value.normalised]

/-- C6: `Create` and `Validation` give their new entry the message
`[r1]...[rn]`, one space, then the normalised text of the cause when resources
are given, and the normalised text alone when none is; the entry is the last
of the returned stack for every cause the constructor accepts. -/
theorem C6_resource_tags_in_message (c : Value) (rs : List GoString) :
    (interfaceToStr c rs
      = if rs = [] then c.normalised else bracketed rs ++ " " ++ c.normalised) ∧
    (c.wrappable = true →
      (∃ st last, Create c rs = some st ∧ st.Errors.getLast? = some last ∧
        last.Message = (if rs = [] then c.normalised
          else bracketed rs ++ " " ++ c.normalised)) ∧
      (∃ st last, Validation c rs = some st ∧ st.Errors.getLast? = some last ∧
        last.Message = (if rs = [] then c.normalised
          else bracketed rs ++ " " ++ c.normalised))) := by
  have hmsg : interfaceToStr c rs
      = if rs = [] then c.normalised else bracketed rs ++ " " ++ c.normalised := by
    cases rs with
    | nil => simpa using interfaceToStr_nil c
    | cons r rs => simpa using interfaceToStr_cons c r rs
  refine ⟨hmsg, fun h => ?_⟩
  rw [← hmsg]
  rcases wrappable_cases c h with hn | ⟨es, l, rfl⟩
  · constructor
    · refine ⟨_, _, newErrorStack_fresh _ _ hn, rfl, rfl⟩
    · refine ⟨_, _, newErrorStack_fresh _ _ hn, rfl, rfl⟩
  · constructor
    · refine ⟨_, _, newErrorStack_append _ _ _, List.getLast?_concat _, rfl⟩
    · refine ⟨_, _, newErrorStack_append _ _ _, List.getLast?_concat _, rfl⟩

theorem C6_witness :
    Validation (.string "bad field") ["user"]
        = some ⟨[⟨0, "[user] bad field", some ErrValidation, 422⟩]⟩ ∧
      interfaceToStr (.string "bad field") ["user", "name"] = "[user][name] bad field" ∧
      (Value.string "bad field").wrappable = true ∧
      ((∃ st last, Create (.string "bad field") ["user"] = some st ∧
          st.Errors.getLast? = some last ∧ last.Message = "[user] bad field") ∧
        (∃ st last, Validation (.string "bad field") ["user"] = some st ∧
          st.Errors.getLast? = some last ∧ last.Message = "[user] bad field")) :=
  ⟨by decide, by decide, rfl,
    (C6_resource_tags_in_message (.string "bad field") ["user"]).2 rfl⟩

/-! ### Numbers, strings and values read back from their text -/

theorem natDigitsAux_eq (fuel : Nat) : ∀ n acc, n < fuel →
    natDigitsAux fuel n acc = natDigits n ++ acc := by
  induction fuel using Nat.strong_induction_on with
  | _ fuel ih =>
    intro n acc hn
    cases fuel with
    | zero => omega
    | succ f =>
      unfold natDigits
      by_cases h10 : n < 10
      · simp [natDigitsAux, h10]
      · simp only [natDigitsAux, h10, if_false]
        have hd : n / 10 < n := by omega
        rw [ih f (by omega) (n / 10) _ (by omega), ih n (by omega) (n / 10) _ hd]
        simp [natDigits]

theorem natDigits_small (n : Nat) (h : n < 10) : natDigits n = [hexDigit n] := by
  simp [natDigits, natDigitsAux, h]

theorem natDigits_step (n : Nat) (h : ¬ n < 10) :
    natDigits n = natDigits (n / 10) ++ [hexDigit (n % 10)] := by
  have hd : n / 10 < n := by omega
  conv_lhs => unfold natDigits
  simp only [natDigitsAux, h, if_false]
  exact natDigitsAux_eq n (n / 10) _ hd

theorem hexDigit_facts : ∀ d, d < 10 → isDigit (hexDigit d) = true ∧ (hexDigit d).toNat - 48 = d ∧
    hexDigit d ≠ '-' ∧ (hexDigit d = '0' → d = 0) := by
  decide

theorem natDigits_all_digits (n : Nat) : ∀ c ∈ natDigits n, isDigit c = true := by
  induction n using Nat.strong_induction_on with
  | _ n ih =>
    by_cases h : n < 10
    · rw [natDigits_small n h]
      intro c hc
      simp at hc
      subst hc
      exact (hexDigit_facts n h).1
    · rw [natDigits_step n h]
      intro c hc
      rcases List.mem_append.1 hc with hc | hc
      · exact ih (n / 10) (by omega) c hc
      · simp at hc
        subst hc
        exact (hexDigit_facts (n % 10) (by omega)).1

theorem digitsValue_snoc (ds : List Char) (d : Char) :
    digitsValue (ds ++ [d]) = digitsValue ds * 10 + (d.toNat - 48) := by
  simp [digitsValue, List.foldl_append]

theorem digitsValue_natDigits (n : Nat) : digitsValue (natDigits n) = n := by
  induction n using Nat.strong_induction_on with
  | _ n ih =>
    by_cases h : n < 10
    · rw [natDigits_small n h]
      simp [digitsValue, (hexDigit_facts n h).2.1]
    · rw [natDigits_step n h, digitsValue_snoc, ih (n / 10) (by omega),
        (hexDigit_facts (n % 10) (by omega)).2.1]
      omega

/-- The first digit: `0` only for the number zero. -/
theorem natDigits_head (n : Nat) : ∃ c t, natDigits n = c :: t ∧ isDigit c = true ∧
    (c = '0' → natDigits n = ['0']) := by
  induction n using Nat.strong_induction_on with
  | _ n ih =>
    by_cases h : n < 10
    · rw [natDigits_small n h]
      refine ⟨_, [], rfl, (hexDigit_facts n h).1, fun h0 => ?_⟩
      rw [h0]
    · rw [natDigits_step n h]
      obtain ⟨c, t, hc, hd, h0⟩ := ih (n / 10) (by omega)
      rw [hc]
      refine ⟨c, t ++ [hexDigit (n % 10)], rfl, hd, fun hz => ?_⟩
      exfalso
      have h1 := h0 hz
      have h2 := digitsValue_natDigits (n / 10)
      rw [h1] at h2
      simp [digitsValue] at h2
      omega

theorem spanDigits_append (ds rest : List Char) (hds : ∀ c ∈ ds, isDigit c = true)
    (hrest : ∀ c t, rest = c :: t → isDigit c = false) :
    spanDigits (ds ++ rest) = (ds, rest) := by
  induction ds with
  | nil =>
    cases rest with
    | nil => rfl
    | cons c t => simp [spanDigits, hrest c t rfl]
  | cons d ds ih =>
    have hd := hds d (List.mem_cons_self _ _)
    have := ih fun c hc => hds c (List.mem_cons_of_mem _ hc)
    simp [spanDigits, hd, this]

theorem delimited_not_digit (rest : List Char) (h : Delimited rest) :
    ∀ c t, rest = c :: t → isDigit c = false ∧ c ≠ '.' ∧ c ≠ 'e' ∧ c ≠ 'E' := by
  intro c t hc
  rcases h with h | ⟨c2, t2, h, hcase⟩
  · rw [h] at hc; cases hc
  · rw [h] at hc
    cases hc
    rcases hcase with h | h | h <;> subst h <;> decide

theorem parseIntPart_natDigits (n : Nat) (rest : List Char) (h : Delimited rest) :
    parseIntPart (natDigits n ++ rest) = some (natDigits n, rest) := by
  obtain ⟨c, t, hc, hd, h0⟩ := natDigits_head n
  have hspan := spanDigits_append (natDigits n) rest (natDigits_all_digits n)
    (fun c t e => (delimited_not_digit rest h c t e).1)
  rw [hc] at hspan ⊢
  by_cases hz : c = '0'
  · have := h0 hz
    rw [hc] at this
    cases this
    simp [parseIntPart]
  · simp only [List.cons_append, parseIntPart, hz, if_false, hd, if_true]
    rw [← List.cons_append, hspan]

theorem parseFraction_delimited (rest : List Char) (h : Delimited rest) :
    parseFraction rest = some ([], rest) := by
  cases rest with
  | nil => rfl
  | cons c t => simp [parseFraction, (delimited_not_digit _ h c t rfl).2.1]

theorem parseExponent_delimited (rest : List Char) (h : Delimited rest) :
    parseExponent rest = some ([], rest) := by
  cases rest with
  | nil => rfl
  | cons c t =>
    have := delimited_not_digit _ h c t rfl
    simp [parseExponent, this.2.2.1, this.2.2.2]

theorem parseNumber_renderInt (i : Int) (rest : List Char) (h : Delimited rest) :
    parseNumber (renderInt i ++ rest) = some (.int i, rest) := by
  cases i with
  | ofNat n =>
    obtain ⟨c, t, hc, hd, -⟩ := natDigits_head n
    have hne : c ≠ '-' := by
      intro hm
      rw [hm] at hd
      exact absurd hd (by decide)
    have hs : parseSign (natDigits n ++ rest) = (false, natDigits n ++ rest) := by
      rw [hc]
      simp [parseSign, hne]
    simp only [renderInt, parseNumber, hs, parseIntPart_natDigits n rest h,
      parseFraction_delimited rest h, parseExponent_delimited rest h, digitsValue_natDigits]
    simp
  | negSucc n =>
    have hs : parseSign ('-' :: natDigits (n + 1) ++ rest) = (true, natDigits (n + 1) ++ rest) := by
      simp [parseSign]
    simp only [renderInt, parseNumber, hs, parseIntPart_natDigits (n + 1) rest h,
      parseFraction_delimited rest h, parseExponent_delimited rest h, digitsValue_natDigits]
    simp [Int.negSucc_eq]



theorem hexVal_hexDigit : ∀ d, d < 16 → hexVal? (hexDigit d) = some d := by
  decide

theorem hex4_low (n : Nat) (hn : n < 256) (cs : List Char) :
    hex4? ('0' :: '0' :: hexDigit (n / 16) :: hexDigit (n % 16) :: cs) = some (n, cs) := by
  have h0 : hexVal? '0' = some 0 := by decide
  simp only [hex4?, h0, hexVal_hexDigit (n / 16) (by omega), hexVal_hexDigit (n % 16) (by omega)]
  simp
  omega

theorem parseStringBody_escapeChar (fuel : Nat) (c : Char) (cs : List Char) :
    parseStringBody (fuel + 1) (escapeChar c ++ cs)
      = (parseStringBody fuel cs).map fun r => (c :: r.1, r.2) := by
  unfold escapeChar
  by_cases h1 : c = '\x22'
  · subst h1
    simp [parseStringBody]
  rw [if_neg h1]
  by_cases h2 : c = '\x5c'
  · subst h2
    simp [parseStringBody]
  rw [if_neg h2]
  by_cases hb : c = '\x08'
  · subst hb
    simp [parseStringBody]
  rw [if_neg hb]
  by_cases hf : c = '\x0c'
  · subst hf
    simp [parseStringBody]
  rw [if_neg hf]
  by_cases h3 : c = '\n'
  · subst h3
    simp [parseStringBody]
  rw [if_neg h3]
  by_cases h4 : c = '\r'
  · subst h4
    simp [parseStringBody]
  rw [if_neg h4]
  by_cases h5 : c = '\t'
  · subst h5
    simp [parseStringBody]
  rw [if_neg h5]
  by_cases h6 : c.toNat < 32 ∨ c = '<' ∨ c = '>' ∨ c = '&'
  · rw [if_pos h6]
    have hn : c.toNat < 256 := by
      rcases h6 with h | h | h | h
      · omega
      · subst h; decide
      · subst h; decide
      · subst h; decide
    have hq : ('\x5c' : Char) ≠ '\x22' := by decide
    have hs : ¬ (0xD800 ≤ c.toNat ∧ c.toNat < 0xE000) := by omega
    simp only [List.cons_append, List.nil_append, parseStringBody, hq, if_false, if_true,
      List.append_eq, hex4_low c.toNat hn, hs, Char.ofNat_toNat]
  rw [if_neg h6]
  by_cases h7 : c = Char.ofNat 0x2028
  · subst h7
    simp [parseStringBody, hex4?, hexVal?]
  rw [if_neg h7]
  by_cases h8 : c = Char.ofNat 0x2029
  · subst h8
    simp [parseStringBody, hex4?, hexVal?]
  rw [if_neg h8]
  have hc : ¬ c.toNat < 32 := fun h => h6 (Or.inl h)
  simp [parseStringBody, h1, h2, hc]

theorem escapeChar_length (c : Char) : 1 ≤ (escapeChar c).length := by
  unfold escapeChar
  repeat' split
  all_goals simp

theorem escapeChars_length (s : List Char) : s.length ≤ (escapeChars s).length := by
  induction s with
  | nil => simp [escapeChars]
  | cons c s ih =>
    have := escapeChar_length c
    simp only [escapeChars, List.length_cons, List.length_append]
    omega

theorem parseStringBody_escapeChars (s rest : List Char) : ∀ fuel, s.length < fuel →
    parseStringBody fuel (escapeChars s ++ '\x22' :: rest) = some (s, rest) := by
  induction s with
  | nil =>
    intro fuel hf
    cases fuel with
    | zero => omega
    | succ f => simp [escapeChars, parseStringBody]
  | cons c s ih =>
    intro fuel hf
    cases fuel with
    | zero => omega
    | succ f =>
      simp only [escapeChars, List.append_assoc]
      rw [parseStringBody_escapeChar, ih f (by simpa using hf)]
      rfl

/-- The escape of a rune reads back as the rune, U+FFFD for an invalid byte. -/
theorem parseStringBody_escapeRune (fuel : Nat) (r : Option Char) (cs : List Char) :
    parseStringBody (fuel + 1) (escapeRune r ++ cs)
      = (parseStringBody fuel cs).map fun t => (r.getD (Char.ofNat 0xFFFD) :: t.1, t.2) := by
  cases r with
  | some c => exact parseStringBody_escapeChar fuel c cs
  | none => simp [escapeRune, parseStringBody, hex4?, hexVal?]

theorem escapeRunes_length (rs : List (Option Char)) : rs.length ≤ (escapeRunes rs).length := by
  induction rs with
  | nil => simp [escapeRunes]
  | cons r rs ih =>
    have : 1 ≤ (escapeRune r).length := by
      cases r with
      | some c => exact escapeChar_length c
      | none => simp [escapeRune]
    simp only [escapeRunes, List.length_cons, List.length_append]
    omega

theorem parseStringBody_escapeRunes (rs : List (Option Char)) (rest : List Char) :
    ∀ fuel, rs.length < fuel →
    parseStringBody fuel (escapeRunes rs ++ '\x22' :: rest)
      = some (rs.map fun r => r.getD (Char.ofNat 0xFFFD), rest) := by
  induction rs with
  | nil =>
    intro fuel hf
    cases fuel with
    | zero => omega
    | succ f => simp [escapeRunes, parseStringBody]
  | cons r rs ih =>
    intro fuel hf
    cases fuel with
    | zero => omega
    | succ f =>
      simp only [escapeRunes, List.append_assoc]
      rw [parseStringBody_escapeRune, ih f (by simpa using hf)]
      rfl

/-- The literal of a Go string reads back as its text coerced to valid UTF-8. -/
theorem parseString_quoteGo (s : GoString) (rest : List Char) :
    parseStringBody ((escapeRunes (runes s) ++ '\x22' :: rest).length + 1)
      (escapeRunes (runes s) ++ '\x22' :: rest) = some (decodeText s, rest) := by
  apply parseStringBody_escapeRunes
  have := escapeRunes_length (runes s)
  simp only [List.length_append, List.length_cons]
  omega

theorem renderInt_head (i : Int) : ∃ c t, renderInt i = c :: t ∧ (isDigit c = true ∨ c = '-') := by
  cases i with
  | ofNat n =>
    obtain ⟨c, t, hc, hd, -⟩ := natDigits_head n
    exact ⟨c, t, hc, Or.inl hd⟩
  | negSucc n => exact ⟨'-', _, rfl, Or.inr rfl⟩

theorem numberHead_facts (c : Char) (h : isDigit c = true ∨ c = '-') :
    c ≠ '\x22' ∧ c ≠ '[' ∧ c ≠ '\x7b' ∧ c ≠ 't' ∧ c ≠ 'f' ∧ c ≠ 'n' ∧ isSpace c = false ∧
      c ≠ ']' ∧ c ≠ '\x7d' := by
  rcases h with h | h
  · refine ⟨?_, ?_, ?_, ?_, ?_, ?_, ?_, ?_, ?_⟩ <;>
      first
      | (intro hc; subst hc; revert h; decide)
      | (simp only [isDigit, Bool.and_eq_true, decide_eq_true_eq] at h
         simp only [isSpace, Bool.or_eq_false_iff, decide_eq_false_iff_not]
         refine ⟨⟨⟨?_, ?_⟩, ?_⟩, ?_⟩ <;> (intro hc; subst hc; revert h; decide))
  · subst h
    decide

/-- The first character of the text of a value is not a space and closes nothing. -/
theorem text_head (v : GoValue) :
    ∃ c t, v.text = c :: t ∧ isSpace c = false ∧ c ≠ ']' ∧ c ≠ '\x7d' := by
  cases v with
  | int i =>
    obtain ⟨c, t, hc, h⟩ := renderInt_head i
    have := numberHead_facts c h
    exact ⟨c, t, by simp [GoValue.text, hc], this.2.2.2.2.2.2.1, this.2.2.2.2.2.2.2.1,
      this.2.2.2.2.2.2.2.2⟩
  | str s => exact ⟨'\x22', _, rfl, by decide, by decide, by decide⟩
  | arr items => exact ⟨'[', _, rfl, by decide, by decide, by decide⟩
  | obj fields => exact ⟨'\x7b', _, rfl, by decide, by decide, by decide⟩

theorem skipSpace_cons (c : Char) (t : List Char) (h : isSpace c = false) :
    skipSpace (c :: t) = c :: t := by
  simp [skipSpace, h]

theorem delimited_comma (t : List Char) : Delimited (',' :: t) :=
  Or.inr ⟨_, _, rfl, Or.inl rfl⟩

theorem delimited_bracket (t : List Char) : Delimited (']' :: t) :=
  Or.inr ⟨_, _, rfl, Or.inr (Or.inl rfl)⟩

theorem delimited_brace (t : List Char) : Delimited ('\x7d' :: t) :=
  Or.inr ⟨_, _, rfl, Or.inr (Or.inr rfl)⟩

theorem parseValue_int (fuel depth : Nat) (i : Int) (rest : List Char) (hd : Delimited rest) :
    parseValue (fuel + 1) depth (renderInt i ++ rest) = some (.int i, rest) := by
  obtain ⟨c, t, hc, h⟩ := renderInt_head i
  have hf := numberHead_facts c h
  have hn := parseNumber_renderInt i rest hd
  rw [hc] at hn ⊢
  simp only [List.cons_append, parseValue, hf.1, hf.2.1, hf.2.2.1, hf.2.2.2.1, hf.2.2.2.2.1,
    hf.2.2.2.2.2.1, if_false]
  exact hn

theorem parseValue_str (fuel depth : Nat) (s : GoString) (rest : List Char) :
    parseValue (fuel + 1) depth (quoteGo s ++ rest) = some (.str (toText s), rest) := by
  simp only [quoteGo, List.cons_append, List.append_assoc, List.singleton_append, parseValue,
    if_true, List.nil_append, parseString_quoteGo s rest, Option.map_some', toText]

/-- The first character of a non-empty comma separated list of values. -/
theorem commaSep_head (v : GoValue) (vs : List GoValue) :
    ∃ c t, commaSep (GoValue.texts (v :: vs)) = c :: t ∧ isSpace c = false ∧ c ≠ ']' := by
  obtain ⟨c, t, hc, hs, hb, -⟩ := text_head v
  cases vs with
  | nil => exact ⟨c, t, by simp [GoValue.texts, commaSep, hc], hs, hb⟩
  | cons v2 vs => exact ⟨c, _, by simp [GoValue.texts, commaSep, hc]; rfl, hs, hb⟩

/-- The first character of the fields of a non-empty record is a quote. -/
theorem fieldsText_head (fs : List (String × GoValue)) (h : fs ≠ []) :
    ∃ c t, commaSep ((GoValue.fieldTexts fs).map fun kv => member kv.1 kv.2) = c :: t ∧
      isSpace c = false ∧ c ≠ '\x7d' := by
  cases fs with
  | nil => exact absurd rfl h
  | cons kv fs =>
    obtain ⟨k, v⟩ := kv
    cases fs with
    | nil =>
      exact ⟨'\x22', _, by simp [GoValue.fieldTexts, commaSep, member, quote]; rfl,
        by decide, by decide⟩
    | cons kv2 fs =>
      obtain ⟨k2, v2⟩ := kv2
      exact ⟨'\x22', _, by simp [GoValue.fieldTexts, commaSep, member, quote]; rfl,
        by decide, by decide⟩

/-- One field `"key":value` followed by a delimiter reads back. -/
theorem parseMember_step (k : String) (v : GoValue) (f depth : Nat)
    (hv : ∀ rest, Delimited rest → parseValue f depth (v.text ++ rest) = some (v.json, rest))
    (d : Char) (tail : List Char) (hd : d = ',' ∨ d = '\x7d') :
    parseMembers (f + 1) depth (member k v.text ++ d :: tail)
      = if d = ',' then
          (parseMembers f depth (skipSpace tail)).map fun t => ((k, v.json) :: t.1, t.2)
        else some ([(k, v.json)], tail) := by
  obtain ⟨c, t, hc, hs, -, -⟩ := text_head v
  have hdel : Delimited (d :: tail) := by
    rcases hd with h | h
    · subst h; exact delimited_comma _
    · subst h; exact delimited_brace _
  have hsd : isSpace d = false := by
    rcases hd with h | h <;> subst h <;> decide
  have hval := hv (d :: tail) hdel
  have hsk : skipSpace (v.text ++ d :: tail) = v.text ++ d :: tail := by
    rw [hc]
    exact skipSpace_cons c _ hs
  simp only [member, quote, List.cons_append, List.append_assoc, List.singleton_append,
    List.nil_append, parseMembers, if_true]
  simp only [List.append_eq, List.cons_append, List.append_assoc, List.singleton_append,
    List.nil_append]
  rw [parseStringBody_escapeChars k.data]
  · simp only [skipSpace_cons ':' _ (by decide : isSpace ':' = false), hsk, hval,
      skipSpace_cons d _ hsd, if_true]
    rcases hd with h | h
    · subst h
      simp
    · subst h
      simp
  · have := escapeChars_length k.data
    simp only [List.length_append, List.length_cons]
    omega

mutual
theorem parseValue_text : (v : GoValue) → ∀ fuel, v.cost ≤ fuel →
    ∀ depth, depth + v.nesting ≤ maxNestingDepth →
    ∀ rest, Delimited rest → parseValue fuel depth (v.text ++ rest) = some (v.json, rest)
  | .int i, fuel, hf, depth, _, rest, hd => by
    cases fuel with
    | zero => simp [GoValue.cost] at hf
    | succ f => simpa [GoValue.text, GoValue.json] using parseValue_int f depth i rest hd
  | .str s, fuel, hf, depth, _, rest, _ => by
    cases fuel with
    | zero => simp [GoValue.cost] at hf
    | succ f => simpa [GoValue.text, GoValue.json] using parseValue_str f depth s rest
  | .arr items, fuel, hf, depth, hn, rest, _ => by
    cases fuel with
    | zero => simp [GoValue.cost] at hf
    | succ f =>
      have hdep : ¬ maxNestingDepth < depth + 1 := by
        simp only [GoValue.nesting] at hn
        omega
      by_cases hnil : items = []
      · subst hnil
        simp [GoValue.text, GoValue.texts, GoValue.json, GoValue.jsons, encodeArray, commaSep,
          parseValue, skipSpace, isSpace, hdep]
      · have hrec := parseItems_text items hnil f (by simp [GoValue.cost] at hf; omega)
          (depth + 1) (by simp only [GoValue.nesting] at hn; omega) rest
        obtain ⟨v, vs, rfl⟩ : ∃ v vs, items = v :: vs := by
          cases items with
          | nil => exact absurd rfl hnil
          | cons v vs => exact ⟨v, vs, rfl⟩
        obtain ⟨c, t, hc, hs, hb⟩ := commaSep_head v vs
        simp only [GoValue.text, GoValue.json, encodeArray, List.cons_append, List.append_assoc,
          List.singleton_append, parseValue] at hrec ⊢
        rw [hc] at hrec ⊢
        simp only [List.cons_append] at hrec ⊢
        rw [skipSpace_cons c _ hs]
        simp [hb, hrec, hdep]
  | .obj fields, fuel, hf, depth, hn, rest, _ => by
    cases fuel with
    | zero => simp [GoValue.cost] at hf
    | succ f =>
      have hdep : ¬ maxNestingDepth < depth + 1 := by
        simp only [GoValue.nesting] at hn
        omega
      by_cases hnil : fields = []
      · subst hnil
        simp [GoValue.text, GoValue.fieldTexts, GoValue.json, GoValue.fieldJsons, encodeObject,
          commaSep, parseValue, skipSpace, isSpace, hdep]
      · have hrec := parseMembers_text fields hnil f (by simp [GoValue.cost] at hf; omega)
          (depth + 1) (by simp only [GoValue.nesting] at hn; omega) rest
        obtain ⟨c, t, hc, hs, hb⟩ := fieldsText_head fields hnil
        simp only [GoValue.text, GoValue.json, encodeObject, List.cons_append, List.append_assoc,
          List.singleton_append, parseValue] at hrec ⊢
        rw [hc] at hrec ⊢
        simp only [List.cons_append] at hrec ⊢
        rw [skipSpace_cons c _ hs]
        simp [hb, hrec, hdep]
theorem parseItems_text : (items : List GoValue) → items ≠ [] →
    ∀ fuel, GoValue.costs items ≤ fuel →
    ∀ depth, depth + GoValue.nestings items ≤ maxNestingDepth → ∀ rest,
    parseItems fuel depth (commaSep (GoValue.texts items) ++ ']' :: rest)
      = some (GoValue.jsons items, rest)
  | [], h, _, _, _, _, _ => absurd rfl h
  | [v], _, fuel, hf, depth, hn, rest => by
    cases fuel with
    | zero => simp [GoValue.costs] at hf
    | succ f =>
      have hv := parseValue_text v f (by simp [GoValue.costs] at hf; omega) depth
        (by simp only [GoValue.nestings] at hn; omega) (']' :: rest) (delimited_bracket rest)
      simp [GoValue.texts, GoValue.jsons, commaSep, parseItems, hv, skipSpace, isSpace]
  | v :: v2 :: vs, _, fuel, hf, depth, hn, rest => by
    cases fuel with
    | zero => simp [GoValue.costs] at hf
    | succ f =>
      have hn0 : depth + max v.nesting (GoValue.nestings (v2 :: vs)) ≤ maxNestingDepth := by
        rw [GoValue.nestings] at hn
        exact hn
      have hn1 : depth + v.nesting ≤ maxNestingDepth := by omega
      have hn2 : depth + GoValue.nestings (v2 :: vs) ≤ maxNestingDepth := by omega
      have hv := parseValue_text v f (by simp [GoValue.costs] at hf; omega) depth hn1
        (',' :: (commaSep (GoValue.texts (v2 :: vs)) ++ ']' :: rest)) (delimited_comma _)
      have hrec := parseItems_text (v2 :: vs) (by simp) f
        (by simp [GoValue.costs] at hf ⊢; omega) depth hn2 rest
      obtain ⟨c, t, hc, hs, -⟩ := commaSep_head v2 vs
      have hsk : skipSpace (commaSep (GoValue.texts (v2 :: vs)) ++ ']' :: rest)
          = commaSep (GoValue.texts (v2 :: vs)) ++ ']' :: rest := by
        rw [hc]
        exact skipSpace_cons c _ hs
      simp only [GoValue.texts, GoValue.jsons, commaSep, List.append_assoc, List.cons_append,
        parseItems] at hv hrec ⊢
      rw [hv]
      simp only [skipSpace_cons ',' _ (by decide : isSpace ',' = false), if_true]
      simp only [GoValue.texts] at hsk
      rw [hsk, hrec]
      rfl
theorem parseMembers_text : (fs : List (String × GoValue)) → fs ≠ [] →
    ∀ fuel, GoValue.fieldCosts fs ≤ fuel →
    ∀ depth, depth + GoValue.fieldNestings fs ≤ maxNestingDepth → ∀ rest,
    parseMembers fuel depth (commaSep ((GoValue.fieldTexts fs).map fun kv => member kv.1 kv.2)
      ++ '\x7d' :: rest) = some (GoValue.fieldJsons fs, rest)
  | [], h, _, _, _, _, _ => absurd rfl h
  | [(k, v)], _, fuel, hf, depth, hn, rest => by
    cases fuel with
    | zero => simp [GoValue.fieldCosts] at hf
    | succ f =>
      have hv := parseValue_text v f (by simp [GoValue.fieldCosts] at hf; omega) depth
        (by simp only [GoValue.fieldNestings] at hn; omega)
      have := parseMember_step k v f depth hv '\x7d' rest (Or.inr rfl)
      simp only [GoValue.fieldTexts, GoValue.fieldJsons, List.map_cons, List.map_nil, commaSep]
      rw [this]
      simp
  | (k, v) :: (k2, v2) :: fs, _, fuel, hf, depth, hn, rest => by
    cases fuel with
    | zero => simp [GoValue.fieldCosts] at hf
    | succ f =>
      have hn0 : depth + max v.nesting (GoValue.fieldNestings ((k2, v2) :: fs))
          ≤ maxNestingDepth := by
        rw [GoValue.fieldNestings] at hn
        exact hn
      have hn1 : depth + v.nesting ≤ maxNestingDepth := by omega
      have hn2 : depth + GoValue.fieldNestings ((k2, v2) :: fs) ≤ maxNestingDepth := by omega
      have hv := parseValue_text v f (by simp [GoValue.fieldCosts] at hf; omega) depth hn1
      have hrec := parseMembers_text ((k2, v2) :: fs) (by simp) f
        (by simp [GoValue.fieldCosts] at hf ⊢; omega) depth hn2 rest
      obtain ⟨c, t, hc, hs, -⟩ := fieldsText_head ((k2, v2) :: fs) (by simp)
      have hsk : skipSpace (commaSep ((GoValue.fieldTexts ((k2, v2) :: fs)).map
            fun kv => member kv.1 kv.2) ++ '\x7d' :: rest)
          = commaSep ((GoValue.fieldTexts ((k2, v2) :: fs)).map
            fun kv => member kv.1 kv.2) ++ '\x7d' :: rest := by
        rw [hc]
        exact skipSpace_cons c _ hs
      have := parseMember_step k v f depth hv ','
        (commaSep ((GoValue.fieldTexts ((k2, v2) :: fs)).map fun kv => member kv.1 kv.2)
          ++ '\x7d' :: rest) (Or.inl rfl)
      rw [hsk, hrec] at this
      simp only [GoValue.fieldTexts, GoValue.fieldJsons, List.map_cons, commaSep,
        List.append_assoc, List.cons_append] at this ⊢
      rw [this]
      rfl
end

theorem commaSep_cons_length (x : List Char) (xs : List (List Char)) :
    (commaSep (x :: xs)).length + 1 = x.length + (commaSep xs).length + (if xs = [] then 1 else 2) := by
  cases xs with
  | nil => simp [commaSep]
  | cons y ys =>
    simp only [commaSep, List.length_append, List.length_cons]
    simp
    omega

mutual
theorem cost_le_length : (v : GoValue) → v.cost ≤ v.text.length
  | .int i => by
    obtain ⟨c, t, hc, -⟩ := renderInt_head i
    simp [GoValue.cost, GoValue.text, hc]
  | .str s => by simp [GoValue.cost, GoValue.text, quoteGo]
  | .arr items => by
    have := costs_le_length items
    simp only [GoValue.cost, GoValue.text, encodeArray, List.length_cons, List.length_append,
      List.length_nil]
    omega
  | .obj fields => by
    have := fieldCosts_le_length fields
    simp only [GoValue.cost, GoValue.text, encodeObject, List.length_cons, List.length_append,
      List.length_nil]
    omega
theorem costs_le_length : (items : List GoValue) →
    GoValue.costs items ≤ (commaSep (GoValue.texts items)).length + 1
  | [] => by simp [GoValue.costs]
  | v :: vs => by
    have h1 := cost_le_length v
    have h2 := costs_le_length vs
    have h3 := commaSep_cons_length v.text (GoValue.texts vs)
    simp only [GoValue.costs, GoValue.texts]
    have h4 : GoValue.texts vs = [] → GoValue.costs vs = 0 := by
      intro h
      cases vs with
      | nil => rfl
      | cons a b => simp [GoValue.texts] at h
    split_ifs at h3 with h5
    · have := h4 h5
      omega
    · omega
theorem fieldCosts_le_length : (fs : List (String × GoValue)) →
    GoValue.fieldCosts fs ≤
      (commaSep ((GoValue.fieldTexts fs).map fun kv => member kv.1 kv.2)).length + 1
  | [] => by simp [GoValue.fieldCosts]
  | (k, v) :: fs => by
    have h1 := cost_le_length v
    have h2 := fieldCosts_le_length fs
    have h3 := commaSep_cons_length (member k v.text)
      ((GoValue.fieldTexts fs).map fun kv => member kv.1 kv.2)
    have h6 : v.text.length + 3 ≤ (member k v.text).length := by
      simp only [member, quote, List.length_cons, List.length_append, List.length_nil]
      omega
    simp only [GoValue.fieldCosts, GoValue.fieldTexts, List.map_cons]
    split_ifs at h3 with h5
    · have h4 : GoValue.fieldCosts fs = 0 := by
        cases fs with
        | nil => rfl
        | cons a b => simp [GoValue.fieldTexts] at h5
      omega
    · omega
end

/-- The text `json.Marshal` writes for a Go value reads back as the JSON value
it stands for, when its nesting is within the limit of the decoder. -/
theorem parseJson_text (v : GoValue) (hn : v.nesting ≤ maxNestingDepth) :
    parseJson v.text = some v.json := by
  obtain ⟨c, t, hc, hs, -, -⟩ := text_head v
  have hv := parseValue_text v (v.text.length + 1)
    (Nat.le_succ_of_le (cost_le_length v)) 0 (by omega) [] (Or.inl rfl)
  rw [List.append_nil] at hv
  have hsk : skipSpace v.text = v.text := by
    rw [hc]
    exact skipSpace_cons c t hs
  simp [parseJson, hsk, hv, skipSpace]

/-! ### Decoding the text `MarshalJSON` writes -/

theorem keyMatches_facts :
    keyMatches "code" "code" = true ∧
    keyMatches "error" "code" = false ∧ keyMatches "error" "error" = true ∧
    keyMatches "type" "code" = false ∧ keyMatches "type" "error" = false ∧
    keyMatches "type" "type" = true ∧
    keyMatches "parent_errors" "code" = false ∧ keyMatches "parent_errors" "error" = false ∧
    keyMatches "parent_errors" "type" = false ∧
    keyMatches "parent_errors" "parent_errors" = true ∧
    keyMatches "id" "ID" = true ∧
    keyMatches "code" "ID" = false ∧ keyMatches "code" "Message" = false ∧
    keyMatches "code" "Kind" = false ∧ keyMatches "code" "HTTPStatusCode" = false ∧
    keyMatches "error" "ID" = false ∧ keyMatches "error" "Message" = false ∧
    keyMatches "error" "Kind" = false ∧ keyMatches "error" "HTTPStatusCode" = false ∧
    keyMatches "type" "ID" = false ∧ keyMatches "type" "Message" = false ∧
    keyMatches "type" "Kind" = false ∧ keyMatches "type" "HTTPStatusCode" = false := by
  decide


theorem decodeError_entryJson (e : Error) (h : inInt64 e.ID = true) :
    decodeError zeroError (entryJson e) = some ⟨e.ID, "", none, 0⟩ := by
  obtain ⟨h1, h2, h3, h4, h5, h6, h7, h8, h9, h10, h11, h12, h13, h14, h15, h16, h17, h18, h19,
    h20, h21, h22, h23⟩ := keyMatches_facts
  simp [decodeError, zeroError, entryJson, decodeMembers, decodeErrorMember, decodeInt, h, h11,
    h12, h13, h14, h15, h16, h17, h18, h19, h20, h21, h22, h23]

theorem decodeErrors_entries (es : List Error) (h : ∀ x ∈ es, inInt64 x.ID = true) :
    decodeErrors [] (es.map entryJson) = some (es.map fun x => ⟨x.ID, "", none, 0⟩) := by
  induction es with
  | nil => rfl
  | cons e es ih =>
    have h1 := decodeError_entryJson e (h e (List.mem_cons_self _ _))
    have h2 := ih fun x hx => h x (List.mem_cons_of_mem _ hx)
    simp only [List.map_cons, decodeErrors, List.headD_nil, List.tail_nil, h1, h2]

theorem decodePayload_stackJson (parents : List Error) (last : Error)
    (hid : ∀ x ∈ parents, inInt64 x.ID = true) (hst : inInt64 last.HTTPStatusCode = true) :
    decodePayload (stackJson parents last)
      = some ⟨last.HTTPStatusCode, toValidUTF8 last.Message, toValidUTF8 last.kindText,
          parents.map fun x => ⟨x.ID, "", none, 0⟩⟩ := by
  obtain ⟨h1, h2, h3, h4, h5, h6, h7, h8, h9, h10, -⟩ := keyMatches_facts
  have hd := decodeErrors_entries parents hid
  cases parents with
  | nil =>
    simp [decodePayload, stackJson, decodeMembers, decodePayloadMember, decodeInt, decodeString,
      toValidUTF8, hst, h1, h2, h3, h4, h5, h6]
  | cons x xs =>
    simp only [List.map_cons] at hd
    simp [decodePayload, stackJson, decodeMembers, decodePayloadMember, decodeInt, decodeString,
      decodeStack, toValidUTF8, hst, hd, h1, h2, h3, h4, h5, h6, h7, h8, h9, h10]

theorem entryValue_jsons (es : List Error) :
    GoValue.jsons (es.map entryValue) = es.map entryJson := by
  induction es with
  | nil => rfl
  | cons e es ih =>
    simp [GoValue.jsons, GoValue.json, GoValue.fieldJsons, entryValue, entryJson, ih]

/-- The Go value `MarshalJSON` writes stands for the object of the specification. -/
theorem stackValue_json (parents : List Error) (last : Error) :
    (stackValue parents last).json = stackJson parents last := by
  cases parents with
  | nil => simp [stackValue, stackJson, GoValue.json, GoValue.fieldJsons]
  | cons x xs =>
    have := entryValue_jsons (x :: xs)
    simp only [List.map_cons] at this
    simp [stackValue, stackJson, GoValue.json, GoValue.fieldJsons, this]

theorem entryValue_nestings (es : List Error) : GoValue.nestings (es.map entryValue) ≤ 1 := by
  induction es with
  | nil => simp [GoValue.nestings]
  | cons e es ih =>
    simp only [List.map_cons, GoValue.nestings, entryValue, GoValue.nesting,
      GoValue.fieldNestings]
    omega

theorem stackValue_nesting (parents : List Error) (last : Error) :
    (stackValue parents last).nesting ≤ maxNestingDepth := by
  have h := entryValue_nestings parents
  cases parents with
  | nil => simp [stackValue, GoValue.nesting, GoValue.fieldNestings, maxNestingDepth]
  | cons x xs =>
    simp only [stackValue, List.cons_append, List.nil_append, GoValue.nesting,
      GoValue.fieldNestings, maxNestingDepth, if_neg (List.cons_ne_nil x xs)]
    omega

/-- The text `MarshalJSON` writes reads back as the object of the specification. -/
theorem parseJson_stackValue (parents : List Error) (last : Error) :
    parseJson (decodeText (utf8Encode (stackValue parents last).text))
      = some (stackJson parents last) := by
  rw [decodeText_utf8Encode, parseJson_text _ (stackValue_nesting parents last),
    stackValue_json]

/-- What `json.Unmarshal` reads from the bytes `MarshalJSON` writes. -/
theorem jsonUnmarshal_stackValue (parents : List Error) (last : Error)
    (hid : ∀ x ∈ parents, inInt64 x.ID = true) (hst : inInt64 last.HTTPStatusCode = true) :
    jsonUnmarshal (utf8Encode (stackValue parents last).text)
      = some ⟨last.HTTPStatusCode, toValidUTF8 last.Message, toValidUTF8 last.kindText,
          parents.map fun x => ⟨x.ID, "", none, 0⟩⟩ := by
  simp only [jsonUnmarshal, parseJson_stackValue, Option.some_bind,
    decodePayload_stackJson parents last hid hst]

theorem intAdd_inInt64 (a b : Int) : inInt64 (intAdd a b) = true := by
  simp only [intAdd, inInt64, Bool.and_eq_true, decide_eq_true_eq]
  omega

/-- Every entry of a built stack carries the kind and the status of one of the
constructors and an ID in the range of `int`. -/
theorem built_entries (s : ErrorStack) (hb : Built s) :
    s.Errors ≠ [] ∧ ∀ e ∈ s.Errors, ∃ k : Ctor, e.Kind = some k.kind ∧
      e.HTTPStatusCode = k.status ∧ inInt64 e.ID = true := by
  induction hb with
  | fresh k cause rs st hc hrun =>
    rw [run_eq_newErrorStack, newErrorStack_fresh _ _ hc] at hrun
    cases hrun
    refine ⟨by simp, ?_⟩
    intro e he
    simp at he
    subst he
    exact ⟨k, rfl, rfl, rfl⟩
  | wrap k s rs st _ hrun ih =>
    obtain ⟨hne, hall⟩ := ih
    obtain ⟨es⟩ := s
    rcases nil_or_snoc es with hnil | ⟨es0, l, hcat⟩
    · exact absurd hnil hne
    · subst hcat
      rw [run_eq_newErrorStack, newErrorStack_append] at hrun
      cases hrun
      refine ⟨by simp, ?_⟩
      intro e he
      rcases List.mem_append.1 he with he | he
      · exact hall e he
      · simp at he
        subst he
        exact ⟨k, rfl, rfl, intAdd_inInt64 _ _⟩

theorem status_inInt64 (k : Ctor) : inInt64 k.status = true := by
  cases k <;> decide

theorem unmarshal_of_parsed (unmarshal : GoString → Option errorStackPayload)
    (e : ErrorStack) (data : GoString) (payload : errorStackPayload)
    (h : unmarshal data = some payload) :
    ErrorStack.UnmarshalJSON unmarshal e data
      = some ({ Errors := [⟨0, payload.Err, some (reverseLookup payload.Code).1,
          (reverseLookup payload.Code).2⟩] }, none) := by
  unfold ErrorStack.UnmarshalJSON
  rw [h]
  simp only [StatusForbidden, StatusUnauthorized, StatusNotFound, StatusUnprocessableEntity,
    StatusConflict, StatusBadRequest, StatusMethodNotAllowed, reverseLookup]
  split_ifs <;> rfl

/-- C7: when the payload parses, `UnmarshalJSON` returns nil and leaves the
receiver with exactly one entry: ID 0, the payload's `error` as message, kind
and status by the reverse lookup on the payload's `code`. The receiver's former
entries and the payload's `type` and `parent_errors` play no part: any other
call whose payload has the same `code` and `error` gives the same result. -/
theorem C7_unmarshal_builds_one_entry (unmarshal : GoString → Option errorStackPayload)
    (e : ErrorStack) (data : GoString) (payload : errorStackPayload)
    (h : unmarshal data = some payload) :
    ErrorStack.UnmarshalJSON unmarshal e data
      = some ({ Errors := [⟨0, payload.Err, some (reverseLookup payload.Code).1,
          (reverseLookup payload.Code).2⟩] }, none) ∧
    ∀ (unmarshal2 : GoString → Option errorStackPayload) (e2 : ErrorStack) (data2 : GoString)
      (payload2 : errorStackPayload), unmarshal2 data2 = some payload2 →
      payload2.Code = payload.Code → payload2.Err = payload.Err →
      ErrorStack.UnmarshalJSON unmarshal2 e2 data2 = ErrorStack.UnmarshalJSON unmarshal e data := by
  refine ⟨unmarshal_of_parsed unmarshal e data payload h, ?_⟩
  intro unmarshal2 e2 data2 payload2 h2 hc he
  rw [unmarshal_of_parsed unmarshal e data payload h,
    unmarshal_of_parsed unmarshal2 e2 data2 payload2 h2, hc, he]

theorem C7_witness :
    jsonUnmarshal "\x7b\"code\":404,\"error\":\"oops\"\x7d" = some ⟨404, "oops", "", []⟩ ∧
    ErrorStack.UnmarshalJSON jsonUnmarshal ⟨[⟨7, "old", some ErrCreate, 500⟩]⟩
        "\x7b\"code\":404,\"error\":\"oops\"\x7d"
      = some (⟨[⟨0, "oops", some ErrNotFound, 404⟩]⟩, none) :=
  ⟨rfl, (C7_unmarshal_builds_one_entry jsonUnmarshal ⟨[⟨7, "old", some ErrCreate, 500⟩]⟩
    "\x7b\"code\":404,\"error\":\"oops\"\x7d" ⟨404, "oops", "", []⟩ rfl).1⟩

/-- C8 (as stated, refuted): on a payload whose `code` is a string the decoder
fails, `UnmarshalJSON` returns a non-nil error and the receiver, empty before
the call, is still empty after it. -/
theorem C8_counterexample :
    jsonUnmarshal "\x7b\"code\":\"x\"\x7d" = none ∧
    ErrorStack.UnmarshalJSON jsonUnmarshal ⟨[]⟩ "\x7b\"code\":\"x\"\x7d"
      = some (⟨[]⟩, some ⟨[⟨0, "\x7b\"code\":\"x\"\x7d", some ErrInternal, 500⟩]⟩) ∧
    ¬ ∃ entry, ErrorStack.UnmarshalJSON jsonUnmarshal ⟨[]⟩ "\x7b\"code\":\"x\"\x7d"
      = some (⟨[entry]⟩, none) := by
  have h : ErrorStack.UnmarshalJSON jsonUnmarshal ⟨[]⟩ "\x7b\"code\":\"x\"\x7d"
      = some (⟨[]⟩, some ⟨[⟨0, "\x7b\"code\":\"x\"\x7d", some ErrInternal, 500⟩]⟩) := rfl
  refine ⟨rfl, h, ?_⟩
  rintro ⟨entry, he⟩
  rw [h] at he
  simp at he

/-- C8 (amended): when the payload does not parse, `UnmarshalJSON` returns as
its error a new one-entry stack of kind `ErrInternal` with status 500 and ID 0
whose message is the raw input, and leaves the receiver as it was. -/
theorem C8_unparsable_payload_returned_as_error
    (unmarshal : GoString → Option errorStackPayload) (e : ErrorStack) (data : GoString)
    (h : unmarshal data = none) :
    ErrorStack.UnmarshalJSON unmarshal e data
      = some (e, some { Errors := [⟨0, data, some ErrInternal, 500⟩] }) := by
  unfold ErrorStack.UnmarshalJSON
  rw [h]
  rfl

theorem C8_witness :
    jsonUnmarshal "not json" = none ∧
    ErrorStack.UnmarshalJSON jsonUnmarshal ⟨[⟨0, "old", some ErrNotFound, 404⟩]⟩ "not json"
      = some (⟨[⟨0, "old", some ErrNotFound, 404⟩]⟩,
          some ⟨[⟨0, "not json", some ErrInternal, 500⟩]⟩) :=
  ⟨rfl, C8_unparsable_payload_returned_as_error jsonUnmarshal
    ⟨[⟨0, "old", some ErrNotFound, 404⟩]⟩ "not json" rfl⟩

theorem entry_marshal (e : Error) (h : e.Kind ≠ none) :
    e.MarshalJSON = some ((entryValue e).text, none) := by
  obtain ⟨i, msg, kind, st⟩ := e
  cases kind with
  | none => exact absurd rfl h
  | some k => rfl

theorem marshalErrors_eq (es : List Error) (h : ∀ x ∈ es, x.Kind ≠ none) :
    marshalErrors es = some (GoValue.texts (es.map entryValue)) := by
  induction es with
  | nil => rfl
  | cons e es ih =>
    have h1 := entry_marshal e (h e (List.mem_cons_self _ _))
    have h2 := ih fun x hx => h x (List.mem_cons_of_mem _ hx)
    simp only [marshalErrors, h1, h2, List.map_cons, GoValue.texts]

/-- The bytes `MarshalJSON` writes for a stack `parents ++ [last]` without nil kinds. -/
theorem marshal_eq_text (parents : List Error) (last : Error)
    (h : ∀ x ∈ parents ++ [last], x.Kind ≠ none) :
    ErrorStack.MarshalJSON { Errors := parents ++ [last] }
      = some (utf8Encode (stackValue parents last).text, none) := by
  have hp := marshalErrors_eq parents fun x hx => h x (List.mem_append_left _ hx)
  have hl : last.Kind ≠ none := h last (by simp)
  obtain ⟨i, msg, kind, st⟩ := last
  cases kind with
  | none => exact absurd rfl hl
  | some k =>
    simp only [ErrorStack.MarshalJSON, List.getLast?_concat, List.dropLast_concat, jsonMarshal, hp,
      Option.map_some', stackValue, Error.kindText]
    cases parents with
    | nil => rfl
    | cons x xs => rfl

/-- The round trip of a built stack: `MarshalJSON` succeeds, and `UnmarshalJSON`
of its bytes leaves one entry with the last message coerced to valid UTF-8. -/
theorem built_round_trip (s : ErrorStack) (hb : Built s) :
    ∃ (parents : List Error) (last : Error) (c : Ctor), s.Errors = parents ++ [last] ∧
      last.Kind = some c.kind ∧
      last.HTTPStatusCode = c.status ∧
      s.MarshalJSON = some (utf8Encode (stackValue parents last).text, none) ∧
      ∀ recv, ErrorStack.UnmarshalJSON jsonUnmarshal recv
          (utf8Encode (stackValue parents last).text)
        = some ({ Errors := [⟨0, toValidUTF8 last.Message,
            some (reverseLookup last.HTTPStatusCode).1,
            (reverseLookup last.HTTPStatusCode).2⟩] }, none) := by
  obtain ⟨hne, hall⟩ := built_entries s hb
  obtain ⟨es⟩ := s
  rcases nil_or_snoc es with hnil | ⟨parents, last, hcat⟩
  · exact absurd hnil hne
  · subst hcat
    have hk : ∀ x ∈ parents ++ [last], x.Kind ≠ none := by
      intro x hx
      obtain ⟨k, hkind, -, -⟩ := hall x hx
      rw [hkind]
      simp
    have hid : ∀ x ∈ parents, inInt64 x.ID = true := by
      intro x hx
      obtain ⟨k, -, -, h⟩ := hall x (List.mem_append_left _ hx)
      exact h
    obtain ⟨c, hkind, hstatus, -⟩ := hall last (by simp)
    have hst : inInt64 last.HTTPStatusCode = true := by
      rw [hstatus]
      exact status_inInt64 c
    refine ⟨parents, last, c, rfl, hkind, hstatus, marshal_eq_text parents last hk, ?_⟩
    intro recv
    exact unmarshal_of_parsed jsonUnmarshal recv _ _
      (jsonUnmarshal_stackValue parents last hid hst)

theorem invalid_byte_replaced :
    toValidUTF8 [byte 255] = [byte 0xEF, byte 0xBF, byte 0xBD] ∧ ¬ validUTF8 [byte 255] := by
  have h : toValidUTF8 [byte 255] = [byte 0xEF, byte 0xBF, byte 0xBD] := by decide
  refine ⟨h, fun hv => ?_⟩
  rw [toValidUTF8_of_valid _ hv] at h
  revert h
  decide

/-- C9 (as stated, refuted): for the stack `Default("\xff")`, whose message is
the single byte `0xFF`, `MarshalJSON` writes an object whose `error` is the
escape of U+FFFD; the string it denotes has the bytes `EF BF BD`, not the
message, and no JSON string denotes the message, which is not valid UTF-8. -/
theorem C9_counterexample :
    Default (.string [byte 255]) = some ⟨[⟨0, [byte 255], some ErrInternal, 500⟩]⟩ ∧
    ErrorStack.MarshalJSON ⟨[⟨0, [byte 255], some ErrInternal, 500⟩]⟩
      = some (utf8 "\x7b\"code\":500,\"error\":\"\\ufffd\",\"type\":\"Internal\"\x7d", none) ∧
    parseJson "\x7b\"code\":500,\"error\":\"\\ufffd\",\"type\":\"Internal\"\x7d".data
      = some (.obj [("code", .int 500), ("error", .str "\uFFFD"), ("type", .str "Internal")]) ∧
    utf8 "\uFFFD" = [byte 0xEF, byte 0xBF, byte 0xBD] ∧
    utf8 "\uFFFD" ≠ [byte 255] ∧
    ¬ ∃ text : String, [byte 255] = utf8 text :=
  ⟨by decide, by decide, rfl, by decide, by decide, invalid_byte_replaced.2⟩

/-- C9 (amended): for a non-empty stack without nil kinds `MarshalJSON` writes,
with no error, the bytes of a JSON text that reads back as the object with
`code` the status of the last entry, `error` its message and `type` the text of
its kind, both coerced to valid UTF-8 (U+FFFD for each byte that begins no
valid encoding), and, when there are earlier entries, `parent_errors` listing
them in order with `id`, `code`, `error` and `type` in the same way; a string
that is valid UTF-8 reads back as itself; the key `parent_errors` is absent
exactly for a one-entry stack and the object has no `id`. The empty stack gives
the empty byte sequence and no error. -/
theorem C9_marshal_writes_last_and_parents (parents : List Error) (last : Error) :
    ((∀ x ∈ parents ++ [last], x.Kind ≠ none) →
      ErrorStack.MarshalJSON { Errors := parents ++ [last] }
        = some (utf8Encode (stackValue parents last).text, none)) ∧
    parseJson (decodeText (utf8Encode (stackValue parents last).text))
      = some (stackJson parents last) ∧
    (∀ x ∈ parents ++ [last],
      (validUTF8 x.Message → utf8 (toText x.Message) = x.Message) ∧
      (validUTF8 x.kindText → utf8 (toText x.kindText) = x.kindText)) ∧
    ("parent_errors" ∉ (stackJson parents last).keys ↔ (parents ++ [last]).length = 1) ∧
    "id" ∉ (stackJson parents last).keys ∧
    ErrorStack.MarshalJSON { Errors := [] } = some (utf8 "", none) := by
  refine ⟨marshal_eq_text parents last, parseJson_stackValue parents last,
    fun x _ => ⟨toValidUTF8_of_valid _, toValidUTF8_of_valid _⟩, ?_, ?_, rfl⟩
  · cases parents with
    | nil => simp [stackJson, Json.keys]
    | cons x xs => simp [stackJson, Json.keys]
  · cases parents with
    | nil => simp [stackJson, Json.keys]
    | cons x xs => simp [stackJson, Json.keys]

theorem C9_witness :
    (∀ x ∈ [(⟨0, "missing", some ErrNotFound, 404⟩ : Error)]
        ++ [⟨1, "missing", some ErrForbidden, 403⟩], x.Kind ≠ none) ∧
    ((NotFound (.string "missing")).bind fun s => Forbidden (.stackPtr s))
      = some ⟨[⟨0, "missing", some ErrNotFound, 404⟩]
          ++ [⟨1, "missing", some ErrForbidden, 403⟩]⟩ ∧
    utf8Encode (stackValue [⟨0, "missing", some ErrNotFound, 404⟩]
        ⟨1, "missing", some ErrForbidden, 403⟩).text
      = "\x7b\"code\":403,\"error\":\"missing\",\"type\":\"Forbidden\",\"parent_errors\":[\x7b\"id\":0,\"code\":404,\"error\":\"missing\",\"type\":\"Record not found\"\x7d]\x7d" ∧
    ErrorStack.MarshalJSON ⟨[⟨0, "missing", some ErrNotFound, 404⟩]
        ++ [⟨1, "missing", some ErrForbidden, 403⟩]⟩
      = some (utf8Encode (stackValue [⟨0, "missing", some ErrNotFound, 404⟩]
          ⟨1, "missing", some ErrForbidden, 403⟩).text, none) ∧
    ErrorStack.MarshalJSON
        ⟨[⟨0, [byte 8, byte 12, byte 10, byte 1, byte 60], some ErrInternal, 500⟩]⟩
      = some (utf8
          "\x7b\"code\":500,\"error\":\"\\b\\f\\n\\u0001\\u003c\",\"type\":\"Internal\"\x7d",
          none) :=
  ⟨by decide, by decide, by decide,
    (C9_marshal_writes_last_and_parents [⟨0, "missing", some ErrNotFound, 404⟩]
      ⟨1, "missing", some ErrForbidden, 403⟩).1 (by decide), by decide⟩

/-- C10 (as stated, refuted): `Forbidden(NotFound("\xff"))` is a stack of two
entries built through the constructors; `UnmarshalJSON` of the bytes
`MarshalJSON` writes for it leaves one entry whose message is the three bytes
of U+FFFD, not the message `0xFF` of the original last entry. -/
theorem C10_counterexample :
    ((NotFound (.string [byte 255])).bind fun s => Forbidden (.stackPtr s))
      = some ⟨[⟨0, [byte 255], some ErrNotFound, 404⟩,
          ⟨1, [byte 255], some ErrForbidden, 403⟩]⟩ ∧
    ErrorStack.MarshalJSON ⟨[⟨0, [byte 255], some ErrNotFound, 404⟩,
        ⟨1, [byte 255], some ErrForbidden, 403⟩]⟩
      = some (utf8 "\x7b\"code\":403,\"error\":\"\\ufffd\",\"type\":\"Forbidden\",\"parent_errors\":[\x7b\"id\":0,\"code\":404,\"error\":\"\\ufffd\",\"type\":\"Record not found\"\x7d]\x7d", none) ∧
    ErrorStack.UnmarshalJSON jsonUnmarshal ⟨[]⟩
        "\x7b\"code\":403,\"error\":\"\\ufffd\",\"type\":\"Forbidden\",\"parent_errors\":[\x7b\"id\":0,\"code\":404,\"error\":\"\\ufffd\",\"type\":\"Record not found\"\x7d]\x7d"
      = some (⟨[⟨0, [byte 0xEF, byte 0xBF, byte 0xBD], some ErrForbidden, 403⟩]⟩, none) ∧
    ([byte 0xEF, byte 0xBF, byte 0xBD] : GoString) ≠ [byte 255] :=
  ⟨by decide, by decide, by decide, by decide⟩

/-- C10 (amended): for a stack with more than one entry built through the
constructors, `MarshalJSON` succeeds and `UnmarshalJSON` of its output leaves,
whatever the receiver held, exactly one entry: ID 0, the message of the
original last entry coerced to valid UTF-8 (the message itself when it is valid
UTF-8), kind and status by the reverse lookup on the original last status. The
result is a function of the last entry alone: no ancestor entry has a part in
it, and it has fewer entries than the original. -/
theorem C10_round_trip_keeps_last_entry_only (s : ErrorStack) (hb : Built s)
    (hn : 1 < s.Errors.length) :
    ∃ last bytes, s.Errors.getLast? = some last ∧ s.MarshalJSON = some (bytes, none) ∧
      (∀ recv, ErrorStack.UnmarshalJSON jsonUnmarshal recv bytes
        = some ({ Errors := [⟨0, toValidUTF8 last.Message,
            some (reverseLookup last.HTTPStatusCode).1,
            (reverseLookup last.HTTPStatusCode).2⟩] }, none)) ∧
      (validUTF8 last.Message →
        ∀ recv, ErrorStack.UnmarshalJSON jsonUnmarshal recv bytes
          = some ({ Errors := [⟨0, last.Message, some (reverseLookup last.HTTPStatusCode).1,
              (reverseLookup last.HTTPStatusCode).2⟩] }, none)) ∧
      (∀ recv r, ErrorStack.UnmarshalJSON jsonUnmarshal recv bytes = some (r, none) →
        r.Errors.length = 1 ∧ r.Errors.length < s.Errors.length) := by
  obtain ⟨parents, last, c, hs, -, -, hm, hu⟩ := built_round_trip s hb
  refine ⟨last, _, by rw [hs]; exact List.getLast?_concat _, hm, hu, ?_, ?_⟩
  · intro hv recv
    rw [hu recv, toValidUTF8_of_valid _ hv]
  · intro recv r hr
    rw [hu recv] at hr
    cases hr
    exact ⟨rfl, hn⟩

theorem C10_witness :
    Built ⟨[⟨0, "missing", some ErrNotFound, 404⟩, ⟨1, "missing", some ErrForbidden, 403⟩]⟩ ∧
    1 < (ErrorStack.mk [⟨0, "missing", some ErrNotFound, 404⟩,
      ⟨1, "missing", some ErrForbidden, 403⟩]).Errors.length ∧
    ∃ last bytes,
      (ErrorStack.mk [⟨0, "missing", some ErrNotFound, 404⟩,
        ⟨1, "missing", some ErrForbidden, 403⟩]).Errors.getLast? = some last ∧
      (ErrorStack.mk [⟨0, "missing", some ErrNotFound, 404⟩,
        ⟨1, "missing", some ErrForbidden, 403⟩]).MarshalJSON = some (bytes, none) ∧
      (∀ recv, ErrorStack.UnmarshalJSON jsonUnmarshal recv bytes
        = some ({ Errors := [⟨0, toValidUTF8 last.Message,
            some (reverseLookup last.HTTPStatusCode).1,
            (reverseLookup last.HTTPStatusCode).2⟩] }, none)) ∧
      (validUTF8 last.Message →
        ∀ recv, ErrorStack.UnmarshalJSON jsonUnmarshal recv bytes
          = some ({ Errors := [⟨0, last.Message, some (reverseLookup last.HTTPStatusCode).1,
              (reverseLookup last.HTTPStatusCode).2⟩] }, none)) ∧
      (∀ recv r, ErrorStack.UnmarshalJSON jsonUnmarshal recv bytes = some (r, none) →
        r.Errors.length = 1 ∧
        r.Errors.length < (ErrorStack.mk [⟨0, "missing", some ErrNotFound, 404⟩,
          ⟨1, "missing", some ErrForbidden, 403⟩]).Errors.length) :=
  have hb : Built ⟨[⟨0, "missing", some ErrNotFound, 404⟩,
      ⟨1, "missing", some ErrForbidden, 403⟩]⟩ :=
    Built.wrap .Forbidden ⟨[⟨0, "missing", some ErrNotFound, 404⟩]⟩ [] _
      (Built.fresh .NotFound (.string "missing") [] _ rfl rfl) (by decide)
  ⟨hb, by decide, C10_round_trip_keeps_last_entry_only _ hb (by decide)⟩

/-! ### Reachable stacks, messages and the round trip -/

theorem run_fresh (k : Ctor) (cause : Value) (rs : List GoString)
    (h : cause.isStackPtr = false) :
    k.run cause rs = some { Errors := [⟨0, k.message cause rs, some k.kind, k.status⟩] } := by
  rw [run_eq_newErrorStack, newErrorStack_fresh _ _ h]

theorem run_stackPtr (k : Ctor) (es : List Error) (l : Error) (rs : List GoString) :
    k.run (.stackPtr { Errors := es ++ [l] }) rs
      = some { Errors := es ++ [l] ++
          [⟨intAdd l.ID 1, k.message (.stackPtr { Errors := es ++ [l] }) rs, some k.kind,
            k.status⟩] } := by
  rw [run_eq_newErrorStack, newErrorStack_append]

theorem message_nil (k : Ctor) (c : Value) : k.message c [] = c.normalised := by
  cases k <;> exact interfaceToStr_nil c

/-- A successful `UnmarshalJSON` leaves one entry, built from the payload. -/
theorem unmarshal_success_shape (unmarshal : GoString → Option errorStackPayload)
    (recv : ErrorStack) (data : GoString) (st : ErrorStack)
    (h : ErrorStack.UnmarshalJSON unmarshal recv data = some (st, none)) :
    ∃ payload : errorStackPayload, st = { Errors := [⟨0, payload.Err, some (reverseLookup payload.Code).1,
      (reverseLookup payload.Code).2⟩] } := by
  cases hu : unmarshal data with
  | none =>
    have : ErrorStack.UnmarshalJSON unmarshal recv data
        = some (recv, some { Errors := [⟨0, data, some ErrInternal, 500⟩] }) := by
      unfold ErrorStack.UnmarshalJSON
      rw [hu]
      rfl
    rw [this] at h
    simp at h
  | some payload =>
    rw [unmarshal_of_parsed unmarshal recv data payload hu] at h
    simp at h
    exact ⟨payload, h.symm⟩

/-- The entries of a reachable stack are numbered from 0 by their position, as
long as the stack has no more entries than a Go `int` counts. -/
theorem reachable_ids (s : ErrorStack) (hr : Reachable s) :
    s.Errors ≠ [] ∧ (s.Errors.length ≤ 2 ^ 63 →
      ∀ (i : Nat) (e : Error), s.Errors[i]? = some e → e.ID = (i : Int)) := by
  induction hr with
  | fresh k cause rs st hc hrun =>
    rw [run_fresh k cause rs hc] at hrun
    cases hrun
    refine ⟨by simp, fun _ i e he => ?_⟩
    cases i with
    | zero =>
      simp at he
      subst he
      rfl
    | succ n => simp at he
  | wrap k s rs st _ hrun ih =>
    obtain ⟨hne, hid⟩ := ih
    obtain ⟨es⟩ := s
    rcases nil_or_snoc es with hnil | ⟨es0, l, hcat⟩
    · exact absurd hnil hne
    · subst hcat
      rw [run_stackPtr] at hrun
      cases hrun
      refine ⟨by simp, fun hlen i e he => ?_⟩
      simp only [List.length_append, List.length_singleton] at hlen
      have hid2 := hid (by simp only [List.length_append, List.length_singleton]; omega)
      have hl : l.ID = (es0.length : Int) := hid2 es0.length l (by simp)
      by_cases hi : i < (es0 ++ [l]).length
      · rw [List.getElem?_append_left hi] at he
        exact hid2 i e he
      · have hi2 : i = (es0 ++ [l]).length := by
          have := (List.getElem?_eq_some.1 he).1
          simp only [List.length_append, List.length_singleton] at this hi ⊢
          omega
        have hadd : intAdd (es0.length : Int) 1 = ((es0.length + 1 : Nat) : Int) := by
          unfold intAdd
          push_cast
          omega
        rw [hi2, List.getElem?_concat_length] at he
        cases he
        show intAdd l.ID 1 = _
        rw [hl, hadd, hi2]
        simp
  | unmarshal um recv data st h =>
    obtain ⟨payload, rfl⟩ := unmarshal_success_shape um recv data st h
    refine ⟨by simp, fun _ i e he => ?_⟩
    cases i with
    | zero =>
      simp at he
      subst he
      rfl
    | succ n => simp at he

theorem ids_eq_range (es : List Error)
    (h : ∀ (i : Nat) (e : Error), es[i]? = some e → e.ID = (i : Int)) :
    es.map (fun e => e.ID) = (List.range es.length).map Int.ofNat := by
  apply List.ext_getElem?
  intro i
  by_cases hi : i < es.length
  · have he : es[i]? = some es[i] := List.getElem?_eq_getElem hi
    simp [he, List.getElem?_range hi, hi, h i _ he]
  · have h1 : es[i]? = none := List.getElem?_eq_none (by omega)
    have h2 : (List.range es.length)[i]? = none :=
      List.getElem?_eq_none (by simp only [List.length_range]; omega)
    simp [h1, h2]

/-- A chain of wraps over a cause that is not a stack pointer is reachable and
has one entry for each constructor. -/
theorem wrapChain_reachable (cause : Value) (first : Ctor × List GoString)
    (rest : List (Ctor × List GoString)) (hc : cause.isStackPtr = false) :
    ∃ st, wrapChain cause first rest = some st ∧ Reachable st ∧
      st.Errors.length = rest.length + 1 := by
  induction rest using List.reverseRecOn with
  | nil =>
    have hrun : first.1.run cause first.2 = some { Errors :=
        [⟨0, first.1.message cause first.2, some first.1.kind, first.1.status⟩] } :=
      run_fresh _ _ _ hc
    exact ⟨_, hrun, Reachable.fresh _ _ _ _ hc hrun, rfl⟩
  | append_singleton rest kr ih =>
    obtain ⟨s, hrun, hr, hlen⟩ := ih
    obtain ⟨es⟩ := s
    rcases nil_or_snoc es with hnil | ⟨es0, l, hcat⟩
    · subst hnil
      simp at hlen
    · subst hcat
      have hstep := run_stackPtr kr.1 es0 l kr.2
      refine ⟨_, ?_, Reachable.wrap _ _ _ _ hr hstep, ?_⟩
      · rw [wrapChain_snoc, hrun, Option.some_bind, hstep]
      · simp only [List.length_append, List.length_singleton] at hlen ⊢
        omega

/-- C11: in every stack reachable from causes that are not stack pointers by
the constructors and successful `UnmarshalJSON` calls, the entry at index `i`
has ID `i` (for a stack of at most `2^63` entries, as every Go slice is); so
`N` sequential wraps give the IDs `0, 1, ..., N-1` in order. -/
theorem C11_entries_numbered_by_position :
    (∀ s, Reachable s → s.Errors.length ≤ 2 ^ 63 →
      (∀ (i : Nat) (e : Error), s.Errors[i]? = some e → e.ID = (i : Int)) ∧
      s.Errors.map (fun e => e.ID) = (List.range s.Errors.length).map Int.ofNat) ∧
    (∀ cause first rest, cause.isStackPtr = false → rest.length + 1 ≤ 2 ^ 63 →
      ∃ st, wrapChain cause first rest = some st ∧ st.Errors.length = rest.length + 1 ∧
        st.Errors.map (fun e => e.ID) = (List.range (rest.length + 1)).map Int.ofNat) := by
  constructor
  · intro s hr hlen
    have h := (reachable_ids s hr).2 hlen
    exact ⟨h, ids_eq_range _ h⟩
  · intro cause first rest hc hlen
    obtain ⟨st, hrun, hr, hl⟩ := wrapChain_reachable cause first rest hc
    refine ⟨st, hrun, hl, ?_⟩
    rw [← hl]
    exact ids_eq_range _ ((reachable_ids st hr).2 (by omega))

theorem C11_witness :
    (Reachable ⟨[⟨0, "oops", some ErrNotFound, 404⟩, ⟨1, "oops", some ErrUpdate, 500⟩]⟩ ∧
      (ErrorStack.mk [⟨0, "oops", some ErrNotFound, 404⟩,
        ⟨1, "oops", some ErrUpdate, 500⟩]).Errors.length ≤ 2 ^ 63 ∧
      (ErrorStack.mk [⟨0, "oops", some ErrNotFound, 404⟩,
          ⟨1, "oops", some ErrUpdate, 500⟩]).Errors.map (fun e => e.ID)
        = (List.range (ErrorStack.mk [⟨0, "oops", some ErrNotFound, 404⟩,
            ⟨1, "oops", some ErrUpdate, 500⟩]).Errors.length).map Int.ofNat) ∧
    (Value.string "missing").isStackPtr = false ∧
    [(Ctor.Forbidden, ([] : List GoString)), (Ctor.Update, [])].length + 1 ≤ 2 ^ 63 ∧
    ∃ st, wrapChain (.string "missing") (.NotFound, []) [(.Forbidden, []), (.Update, [])]
        = some st ∧
      st.Errors.length = [(Ctor.Forbidden, ([] : List GoString)), (Ctor.Update, [])].length + 1 ∧
      st.Errors.map (fun e => e.ID)
        = (List.range ([(Ctor.Forbidden, ([] : List GoString)), (Ctor.Update, [])].length + 1)).map
            Int.ofNat :=
  have hr : Reachable ⟨[⟨0, "oops", some ErrNotFound, 404⟩,
      ⟨1, "oops", some ErrUpdate, 500⟩]⟩ :=
    Reachable.wrap .Update ⟨[⟨0, "oops", some ErrNotFound, 404⟩]⟩ [] _
      (Reachable.unmarshal jsonUnmarshal ⟨[]⟩ "\x7b\"code\":404,\"error\":\"oops\"\x7d" _ rfl)
      (by decide)
  ⟨⟨hr, by decide, (C11_entries_numbered_by_position.1 _ hr (by decide)).2⟩, rfl, by decide,
    C11_entries_numbered_by_position.2 (.string "missing") (.NotFound, [])
      [(.Forbidden, []), (.Update, [])] rfl (by decide)⟩

/-- C12: `StatusCode()` is the status of the last entry and `Error()` its
message, whatever the earlier entries; on a stack without entries
`StatusCode()` is 500 and `Error()` the empty string. -/
theorem C12_accessors_read_last_entry :
    (∀ (earlier : List Error) (last : Error),
      ErrorStack.StatusCode { Errors := earlier ++ [last] } = last.HTTPStatusCode ∧
      ErrorStack.Error { Errors := earlier ++ [last] } = last.Message) ∧
    (∀ (s : ErrorStack) (last : Error), s.Errors.getLast? = some last →
      s.StatusCode = last.HTTPStatusCode ∧ s.Error = last.Message) ∧
    ErrorStack.StatusCode { Errors := [] } = 500 ∧
    ErrorStack.Error { Errors := [] } = "" := by
  refine ⟨fun earlier last => ⟨statusCode_append _ _, ?_⟩, fun s last h => ?_, rfl, rfl⟩
  · simp [ErrorStack.Error, Error.Error]
  · simp [ErrorStack.StatusCode, ErrorStack.Error, Error.Error, h]

theorem C12_witness :
    (ErrorStack.mk [⟨0, "missing", some ErrNotFound, 404⟩,
        ⟨1, "denied", some ErrForbidden, 403⟩]).Errors.getLast?
      = some ⟨1, "denied", some ErrForbidden, 403⟩ ∧
    (ErrorStack.mk [⟨0, "missing", some ErrNotFound, 404⟩,
        ⟨1, "denied", some ErrForbidden, 403⟩]).StatusCode
      = (Error.mk 1 "denied" (some ErrForbidden) 403).HTTPStatusCode ∧
    (ErrorStack.mk [⟨0, "missing", some ErrNotFound, 404⟩,
        ⟨1, "denied", some ErrForbidden, 403⟩]).Error
      = (Error.mk 1 "denied" (some ErrForbidden) 403).Message :=
  ⟨rfl, C12_accessors_read_last_entry.2.1 _ _ rfl⟩

/-- C13: on every cause a constructor accepts, `MethodNotAllowed` and
`Assertion` both return a stack of kind `ErrAssertion`, with status 405 and 400;
`IsKind` and `IsRootOfKind` give the same answer on the two results for every
kind; the two results have the same IDs, messages and kinds, entry by entry,
and differ (in the status of the last entry). -/
theorem C13_method_not_allowed_shares_assertion_tag (c : Value) (h : c.wrappable = true) :
    ∃ m a, MethodNotAllowed c = some m ∧ Assertion c = some a ∧
      IsKind (.stackPtr m) (some ErrAssertion) = true ∧
      IsKind (.stackPtr a) (some ErrAssertion) = true ∧
      m.StatusCode = 405 ∧ a.StatusCode = 400 ∧
      (∀ k, IsKind (.stackPtr m) k = IsKind (.stackPtr a) k) ∧
      (∀ k, IsRootOfKind (.stackPtr m) k = IsRootOfKind (.stackPtr a) k) ∧
      m.Errors.map (fun e => (e.ID, e.Message, e.Kind))
        = a.Errors.map (fun e => (e.ID, e.Message, e.Kind)) ∧
      m ≠ a := by
  rcases wrappable_cases c h with hn | ⟨es, l, rfl⟩
  · refine ⟨_, _, run_fresh .MethodNotAllowed c [] hn, run_fresh .Assertion c [] hn,
      by simp [IsKind, Ctor.kind], by simp [IsKind, Ctor.kind], rfl, rfl, fun k => rfl,
      fun k => rfl, ?_, ?_⟩
    · simp [Ctor.message, Ctor.kind]
    · simp [Ctor.status]
  · refine ⟨_, _, run_stackPtr .MethodNotAllowed es l [], run_stackPtr .Assertion es l [],
      by simp [IsKind, Ctor.kind], by simp [IsKind, Ctor.kind], statusCode_append _ _,
      statusCode_append _ _, fun k => ?_, fun k => ?_, ?_, ?_⟩
    · simp [IsKind, Ctor.kind]
    · cases es with
      | nil => simp [IsRootOfKind]
      | cons r es => simp [IsRootOfKind]
    · simp [Ctor.message, Ctor.kind]
    · simp [Ctor.status]

theorem C13_witness :
    (Value.string "no").wrappable = true ∧
    ∃ m a, MethodNotAllowed (.string "no") = some m ∧ Assertion (.string "no") = some a ∧
      IsKind (.stackPtr m) (some ErrAssertion) = true ∧
      IsKind (.stackPtr a) (some ErrAssertion) = true ∧
      m.StatusCode = 405 ∧ a.StatusCode = 400 ∧
      (∀ k, IsKind (.stackPtr m) k = IsKind (.stackPtr a) k) ∧
      (∀ k, IsRootOfKind (.stackPtr m) k = IsRootOfKind (.stackPtr a) k) ∧
      m.Errors.map (fun e => (e.ID, e.Message, e.Kind))
        = a.Errors.map (fun e => (e.ID, e.Message, e.Kind)) ∧
      m ≠ a :=
  ⟨rfl, C13_method_not_allowed_shares_assertion_tag (.string "no") rfl⟩

theorem lastMessage_run (k : Ctor) (c : Value) (rs : List GoString) (h : c.wrappable = true) :
    lastMessage? (k.run c rs) = some (k.message c rs) := by
  rcases wrappable_cases c h with hn | ⟨es, l, rfl⟩
  · rw [run_fresh k c rs hn]
    rfl
  · rw [run_stackPtr]
    simp [lastMessage?]

/-- C14 (as stated, refuted): `Create` with the resource `user` on a cause that
is neither an error nor a string gives the message `[user] `, not the empty
message. -/
theorem C14_counterexample :
    lastMessage? (Create .other ["user"]) = some "[user] " ∧
    lastMessage? (Validation .other ["user"]) = some "[user] " ∧
    lastMessage? (Create .other ["user"]) ≠ some "" := by
  decide

/-- C14 (amended): a constructor called with no resources gives its new entry
the message `c.Error()` when the cause is an error (a stack pointer and a stack
value included), the cause itself when it is a string, and the empty message
for anything else; with resources, `Create` and `Validation` on a cause that is
neither give the bracketed resources followed by one space. -/
theorem C14_message_is_normalised_cause (k : Ctor) :
    (∀ e, lastMessage? (k.run (.error e) []) = some e.text) ∧
    (∀ s, s.Errors ≠ [] → lastMessage? (k.run (.stackPtr s) []) = some s.Error) ∧
    (∀ s, lastMessage? (k.run (.stackVal s) []) = some s.Error) ∧
    (∀ m, lastMessage? (k.run (.string m) []) = some m) ∧
    lastMessage? (k.run .other []) = some "" ∧
    (∀ rs, rs ≠ [] →
      lastMessage? (Create .other rs) = some (bracketed rs ++ " ") ∧
      lastMessage? (Validation .other rs) = some (bracketed rs ++ " ")) := by
  refine ⟨fun e => ?_, fun s hs => ?_, fun s => ?_, fun m => ?_, ?_, fun rs hrs => ?_⟩
  · rw [lastMessage_run k (.error e) [] rfl, message_nil]
    rfl
  · have hw : (Value.stackPtr s).wrappable = true := by
      obtain ⟨es⟩ := s
      cases es with
      | nil => exact absurd rfl hs
      | cons a b => rfl
    rw [lastMessage_run k (.stackPtr s) [] hw, message_nil]
    rfl
  · rw [lastMessage_run k (.stackVal s) [] rfl, message_nil]
    rfl
  · rw [lastMessage_run k (.string m) [] rfl, message_nil]
    rfl
  · rw [lastMessage_run k .other [] rfl, message_nil]
    rfl
  · have hmsg : interfaceToStr .other rs = bracketed rs ++ " " := by
      cases rs with
      | nil => exact absurd rfl hrs
      | cons r rs =>
        rw [interfaceToStr_cons]
        simp [Value.normalised, utf8_empty]
    constructor
    · have := lastMessage_run .Create .other rs rfl
      simpa [Ctor.run, Ctor.message, hmsg] using this
    · have := lastMessage_run .Validation .other rs rfl
      simpa [Ctor.run, Ctor.message, hmsg] using this

theorem C14_witness :
    (ErrorStack.mk [⟨0, "missing", some ErrNotFound, 404⟩]).Errors ≠ [] ∧
    lastMessage? (Ctor.run .Forbidden (.stackPtr ⟨[⟨0, "missing", some ErrNotFound, 404⟩]⟩) [])
      = some (ErrorStack.mk [⟨0, "missing", some ErrNotFound, 404⟩]).Error ∧
    ((["user", "name"] : List GoString) ≠ []) ∧
    lastMessage? (Create .other ["user", "name"]) = some (bracketed ["user", "name"] ++ " ") ∧
    lastMessage? (Validation .other ["user", "name"])
      = some (bracketed ["user", "name"] ++ " ") :=
  ⟨by decide, (C14_message_is_normalised_cause .Forbidden).2.1 _ (by decide), by decide,
    (C14_message_is_normalised_cause .Forbidden).2.2.2.2.2 ["user", "name"] (by decide)⟩

theorem getLast_snoc_shape (es : List Error) (last : Error) (h : es.getLast? = some last) :
    ∃ es0, es = es0 ++ [last] := by
  rcases nil_or_snoc es with hnil | ⟨es0, l, hcat⟩
  · subst hnil; simp at h
  · subst hcat
    simp at h
    exact ⟨es0, by rw [h]⟩

/-- A chain of wraps without resources over a string cause: every entry carries
the string. -/
theorem wrapChain_messages (m : GoString) (first : Ctor) (rest : List Ctor) :
    ∃ st, wrapChain (.string m) (first, []) (rest.map fun k => (k, [])) = some st ∧
      st.Errors.length = rest.length + 1 ∧ ∀ e ∈ st.Errors, e.Message = m := by
  induction rest using List.reverseRecOn with
  | nil =>
    refine ⟨_, run_fresh first (.string m) [] rfl, rfl, ?_⟩
    intro e he
    simp at he
    subst he
    show first.message (.string m) [] = m
    rw [message_nil]
    rfl
  | append_singleton rest k ih =>
    obtain ⟨s, hrun, hlen, hall⟩ := ih
    obtain ⟨es⟩ := s
    rcases nil_or_snoc es with hnil | ⟨es0, l, hcat⟩
    · subst hnil
      simp at hlen
    · subst hcat
      have hstep := run_stackPtr k es0 l []
      have hchain : wrapChain (.string m) (first, []) ((rest ++ [k]).map fun k => (k, []))
          = some { Errors := es0 ++ [l] ++
              [⟨intAdd l.ID 1, k.message (.stackPtr { Errors := es0 ++ [l] }) [], some k.kind,
                k.status⟩] } := by
        rw [List.map_append, List.map_singleton, wrapChain_snoc, hrun, Option.some_bind]
        exact hstep
      refine ⟨_, hchain, ?_, ?_⟩
      · simp only [List.length_append, List.length_singleton] at hlen ⊢
        omega
      · intro e he
        rcases List.mem_append.1 he with he | he
        · exact hall e he
        · simp at he
          subst he
          show k.message (.stackPtr { Errors := es0 ++ [l] }) [] = m
          rw [message_nil]
          simp only [Value.normalised, ErrorStack.Error, List.getLast?_concat, Error.Error]
          exact hall l (by simp)

/-- C15: a constructor called without resources on a pointer to a non-empty
stack gives its new last entry the message of the former last entry, so
`Error()` of the result is `Error()` of the stack before the call; hence in a
stack built from a string `m` by any number of such wraps every entry's message
is `m`. -/
theorem C15_wrapping_keeps_the_text :
    (∀ (k : Ctor) (s : ErrorStack) (last : Error), s.Errors.getLast? = some last →
      ∃ st new, k.run (.stackPtr s) [] = some st ∧ st.Errors.getLast? = some new ∧
        new.Message = last.Message ∧ st.Error = s.Error) ∧
    (∀ (m : GoString) (first : Ctor) (rest : List Ctor),
      ∃ st, wrapChain (.string m) (first, []) (rest.map fun k => (k, [])) = some st ∧
        st.Errors.length = rest.length + 1 ∧ ∀ e ∈ st.Errors, e.Message = m) := by
  refine ⟨?_, wrapChain_messages⟩
  intro k s last hlast
  obtain ⟨es⟩ := s
  obtain ⟨es0, rfl⟩ := getLast_snoc_shape es last hlast
  have hm : k.message (.stackPtr { Errors := es0 ++ [last] }) [] = last.Message := by
    rw [message_nil]
    simp [Value.normalised, ErrorStack.Error, Error.Error]
  refine ⟨_, _, run_stackPtr k es0 last [], List.getLast?_concat _, hm, ?_⟩
  simp [ErrorStack.Error, Error.Error, hm]

theorem C15_witness :
    (ErrorStack.mk [⟨0, "missing", some ErrNotFound, 404⟩]).Errors.getLast?
      = some ⟨0, "missing", some ErrNotFound, 404⟩ ∧
    (∃ st new, Ctor.run .Forbidden (.stackPtr ⟨[⟨0, "missing", some ErrNotFound, 404⟩]⟩) []
        = some st ∧ st.Errors.getLast? = some new ∧
      new.Message = (Error.mk 0 "missing" (some ErrNotFound) 404).Message ∧
      st.Error = (ErrorStack.mk [⟨0, "missing", some ErrNotFound, 404⟩]).Error) ∧
    wrapChain (.string "missing") (.NotFound, []) [(.Forbidden, [])]
      = some ⟨[⟨0, "missing", some ErrNotFound, 404⟩, ⟨1, "missing", some ErrForbidden, 403⟩]⟩ :=
  ⟨rfl, C15_wrapping_keeps_the_text.1 .Forbidden ⟨[⟨0, "missing", some ErrNotFound, 404⟩]⟩
    ⟨0, "missing", some ErrNotFound, 404⟩ rfl, by decide⟩

theorem ctor_in_table (k : Ctor) :
    k.kind ∈ fixedTags ∧ k.status ∈ tableStatuses k.kind := by
  cases k <;> decide

theorem reverseLookup_in_table (code : Int) :
    (reverseLookup code).1 ∈ fixedTags ∧
      (reverseLookup code).2 ∈ tableStatuses (reverseLookup code).1 := by
  unfold reverseLookup
  split_ifs <;> decide

/-- Every entry of a reachable stack has one of the eleven tags as its kind and
a status the table allows that tag. -/
theorem reachable_table (s : ErrorStack) (hr : Reachable s) :
    ∀ e ∈ s.Errors, ∃ kind, e.Kind = some kind ∧ kind ∈ fixedTags ∧
      e.HTTPStatusCode ∈ tableStatuses kind := by
  induction hr with
  | fresh k cause rs st hc hrun =>
    rw [run_fresh k cause rs hc] at hrun
    cases hrun
    intro e he
    simp at he
    subst he
    exact ⟨k.kind, rfl, ctor_in_table k⟩
  | wrap k s rs st hr hrun ih =>
    obtain ⟨es⟩ := s
    rcases nil_or_snoc es with hnil | ⟨es0, l, hcat⟩
    · subst hnil
      exact absurd rfl (reachable_ids _ hr).1
    · subst hcat
      rw [run_stackPtr] at hrun
      cases hrun
      intro e he
      rcases List.mem_append.1 he with he | he
      · exact ih e he
      · simp at he
        subst he
        exact ⟨k.kind, rfl, ctor_in_table k⟩
  | unmarshal um recv data st h =>
    obtain ⟨payload, rfl⟩ := unmarshal_success_shape um recv data st h
    intro e he
    simp at he
    subst he
    exact ⟨_, rfl, reverseLookup_in_table payload.Code⟩

/-- C16: in every stack reachable through the constructors and successful
`UnmarshalJSON` calls, each entry has a non-nil kind among the eleven tags and a
status the table gives that kind (500 for `ErrInternal`, `ErrDatabase`,
`ErrCreate`, `ErrUpdate`, `ErrDelete`; 403, 401, 404, 422, 409 for
`ErrForbidden`, `ErrUnauthorized`, `ErrNotFound`, `ErrValidation`,
`ErrDuplicated`; 400 or 405 for `ErrAssertion`); so `MarshalJSON` returns on
such a stack, with no nil kind dereferenced. -/
theorem C16_kind_and_status_follow_the_table (s : ErrorStack) (hr : Reachable s) :
    (∀ e ∈ s.Errors, ∃ kind, e.Kind = some kind ∧ kind ∈ fixedTags ∧
      e.HTTPStatusCode ∈ tableStatuses kind) ∧
    s.Errors ≠ [] ∧
    ∃ bytes, s.MarshalJSON = some (bytes, none) := by
  have ht := reachable_table s hr
  have hne := (reachable_ids s hr).1
  refine ⟨ht, hne, ?_⟩
  obtain ⟨es⟩ := s
  rcases nil_or_snoc es with hnil | ⟨parents, last, hcat⟩
  · exact absurd hnil hne
  · subst hcat
    refine ⟨_, marshal_eq_text parents last ?_⟩
    intro x hx
    obtain ⟨kind, hk, -, -⟩ := ht x hx
    rw [hk]
    simp

theorem C16_witness :
    Reachable ⟨[⟨0, "oops", some ErrNotFound, 404⟩, ⟨1, "oops", some ErrAssertion, 405⟩]⟩ ∧
    (∀ e ∈ (ErrorStack.mk [⟨0, "oops", some ErrNotFound, 404⟩,
        ⟨1, "oops", some ErrAssertion, 405⟩]).Errors,
      ∃ kind, e.Kind = some kind ∧ kind ∈ fixedTags ∧
        e.HTTPStatusCode ∈ tableStatuses kind) ∧
    (ErrorStack.mk [⟨0, "oops", some ErrNotFound, 404⟩,
      ⟨1, "oops", some ErrAssertion, 405⟩]).Errors ≠ [] ∧
    ∃ bytes, (ErrorStack.mk [⟨0, "oops", some ErrNotFound, 404⟩,
      ⟨1, "oops", some ErrAssertion, 405⟩]).MarshalJSON = some (bytes, none) :=
  have hr : Reachable ⟨[⟨0, "oops", some ErrNotFound, 404⟩,
      ⟨1, "oops", some ErrAssertion, 405⟩]⟩ :=
    Reachable.wrap .MethodNotAllowed ⟨[⟨0, "oops", some ErrNotFound, 404⟩]⟩ [] _
      (Reachable.unmarshal jsonUnmarshal ⟨[]⟩ "\x7b\"code\":404,\"error\":\"oops\"\x7d" _ rfl)
      (by decide)
  ⟨hr, C16_kind_and_status_follow_the_table _ hr⟩

theorem reverseLookup_ctor (c : Ctor) :
    (reverseLookup c.status).2 = c.status ∧
    ((reverseLookup c.status).1 = c.kind ↔ c.kind ∉ lostTags) ∧
    (c.kind ∈ lostTags → (reverseLookup c.status).1 = ErrInternal) := by
  cases c <;> decide

/-- C17 (as stated, refuted): `Default("\xff")` is a stack built through the
constructors whose `Error()` is the byte `0xFF`; the stack `UnmarshalJSON`
reads from the bytes `MarshalJSON` writes for it has the three bytes of U+FFFD
as its `Error()`. -/
theorem C17_counterexample :
    Default (.string [byte 255]) = some ⟨[⟨0, [byte 255], some ErrInternal, 500⟩]⟩ ∧
    ErrorStack.MarshalJSON ⟨[⟨0, [byte 255], some ErrInternal, 500⟩]⟩
      = some (utf8 "\x7b\"code\":500,\"error\":\"\\ufffd\",\"type\":\"Internal\"\x7d", none) ∧
    ErrorStack.UnmarshalJSON jsonUnmarshal ⟨[]⟩
        "\x7b\"code\":500,\"error\":\"\\ufffd\",\"type\":\"Internal\"\x7d"
      = some (⟨[⟨0, [byte 0xEF, byte 0xBF, byte 0xBD], some ErrInternal, 500⟩]⟩, none) ∧
    ErrorStack.Error ⟨[⟨0, [byte 0xEF, byte 0xBF, byte 0xBD], some ErrInternal, 500⟩]⟩
      ≠ ErrorStack.Error ⟨[⟨0, [byte 255], some ErrInternal, 500⟩]⟩ :=
  ⟨by decide, by decide, by decide, by decide⟩

/-- C17 (amended): for a stack built through the constructors, `MarshalJSON`
followed by `UnmarshalJSON` leaves a stack with the same `StatusCode()` and
with the text of `Error()` coerced to valid UTF-8, which is the same `Error()`
when that text is valid UTF-8; the kind of the last entry is still the kind of
the result exactly when it is not one of `ErrDatabase`, `ErrCreate`,
`ErrUpdate`, `ErrDelete`, and for those four the result is of kind
`ErrInternal`. -/
theorem C17_round_trip_keeps_status_and_text (s : ErrorStack) (hb : Built s) :
    ∃ last bytes, s.Errors.getLast? = some last ∧ s.MarshalJSON = some (bytes, none) ∧
      ∀ recv, ∃ r, ErrorStack.UnmarshalJSON jsonUnmarshal recv bytes = some (r, none) ∧
        r.StatusCode = s.StatusCode ∧ r.Error = toValidUTF8 s.Error ∧
        (validUTF8 s.Error → r.Error = s.Error) ∧
        ∀ k, last.Kind = some k →
          (IsKind (.stackPtr r) (some k) = true ↔ k ∉ lostTags) ∧
          (k ∈ lostTags → IsKind (.stackPtr r) (some ErrInternal) = true) := by
  obtain ⟨parents, last, c, hs, hkind, hstatus, hm, hu⟩ := built_round_trip s hb
  obtain ⟨es⟩ := s
  simp only at hs
  subst hs
  obtain ⟨h1, h2, h3⟩ := reverseLookup_ctor c
  have herr : ErrorStack.Error { Errors := parents ++ [last] } = last.Message := by
    simp [ErrorStack.Error, Error.Error]
  refine ⟨last, _, List.getLast?_concat _, hm, ?_⟩
  intro recv
  refine ⟨_, hu recv, ?_, ?_, ?_, ?_⟩
  · rw [statusCode_append]
    show (reverseLookup last.HTTPStatusCode).2 = last.HTTPStatusCode
    rw [hstatus]
    exact h1
  · rw [herr]
    simp [ErrorStack.Error, Error.Error]
  · intro hv
    rw [herr] at hv ⊢
    simp [ErrorStack.Error, Error.Error, toValidUTF8_of_valid _ hv]
  · intro k hlk
    rw [hkind] at hlk
    cases hlk
    rw [hstatus]
    constructor
    · simp only [IsKind, List.getLast?_singleton, beq_iff_eq, Option.some.injEq]
      exact h2
    · intro hl
      simp only [IsKind, List.getLast?_singleton, beq_iff_eq, Option.some.injEq]
      exact h3 hl

theorem C17_witness :
    Built ⟨[⟨0, "missing", some ErrNotFound, 404⟩, ⟨1, "missing", some ErrCreate, 500⟩]⟩ ∧
    ∃ last bytes,
      (ErrorStack.mk [⟨0, "missing", some ErrNotFound, 404⟩,
        ⟨1, "missing", some ErrCreate, 500⟩]).Errors.getLast? = some last ∧
      (ErrorStack.mk [⟨0, "missing", some ErrNotFound, 404⟩,
        ⟨1, "missing", some ErrCreate, 500⟩]).MarshalJSON = some (bytes, none) ∧
      ∀ recv, ∃ r, ErrorStack.UnmarshalJSON jsonUnmarshal recv bytes = some (r, none) ∧
        r.StatusCode = (ErrorStack.mk [⟨0, "missing", some ErrNotFound, 404⟩,
          ⟨1, "missing", some ErrCreate, 500⟩]).StatusCode ∧
        r.Error = toValidUTF8 (ErrorStack.mk [⟨0, "missing", some ErrNotFound, 404⟩,
          ⟨1, "missing", some ErrCreate, 500⟩]).Error ∧
        (validUTF8 (ErrorStack.mk [⟨0, "missing", some ErrNotFound, 404⟩,
            ⟨1, "missing", some ErrCreate, 500⟩]).Error →
          r.Error = (ErrorStack.mk [⟨0, "missing", some ErrNotFound, 404⟩,
            ⟨1, "missing", some ErrCreate, 500⟩]).Error) ∧
        ∀ k, last.Kind = some k →
          (IsKind (.stackPtr r) (some k) = true ↔ k ∉ lostTags) ∧
          (k ∈ lostTags → IsKind (.stackPtr r) (some ErrInternal) = true) :=
  have hb : Built ⟨[⟨0, "missing", some ErrNotFound, 404⟩,
      ⟨1, "missing", some ErrCreate, 500⟩]⟩ :=
    Built.wrap .Create ⟨[⟨0, "missing", some ErrNotFound, 404⟩]⟩ [] _
      (Built.fresh .NotFound (.string "missing") [] _ rfl rfl) (by decide)
  ⟨hb, C17_round_trip_keeps_status_and_text _ hb⟩

/-- C18: an `ErrorStack` passed by value is not recognised as a stack: `IsKind`
and `IsRootOfKind` are false on it for every kind, and every constructor wraps
it as a plain error, returning a new stack of one entry with ID 0 whose message
is the message of the value's last entry (after the bracketed resources, when
`Create` or `Validation` is given some); the value passed is left as it was. -/
theorem C18_stack_by_value_is_a_plain_error (s : ErrorStack) (last : Error)
    (h : s.Errors.getLast? = some last) :
    (∀ k, IsKind (.stackVal s) k = false ∧ IsRootOfKind (.stackVal s) k = false) ∧
    (∀ c : Ctor,
      c.run (.stackVal s) [] = some { Errors := [⟨0, last.Message, some c.kind, c.status⟩] } ∧
      causeAfter (.stackVal s) { Errors := [⟨0, last.Message, some c.kind, c.status⟩] }
        = .stackVal s) ∧
    (∀ (c : Ctor) (rs : List GoString), ∃ msg,
      c.run (.stackVal s) rs = some { Errors := [⟨0, msg, some c.kind, c.status⟩] }) := by
  refine ⟨fun k => ⟨rfl, rfl⟩, fun c => ⟨?_, rfl⟩, fun c rs => ⟨_, run_fresh c _ rs rfl⟩⟩
  rw [run_fresh c (.stackVal s) [] rfl, message_nil]
  simp [Value.normalised, ErrorStack.Error, Error.Error, h]

theorem C18_witness :
    (ErrorStack.mk [⟨0, "missing", some ErrNotFound, 404⟩,
        ⟨1, "denied", some ErrForbidden, 403⟩]).Errors.getLast?
      = some ⟨1, "denied", some ErrForbidden, 403⟩ ∧
    IsKind (.stackVal ⟨[⟨0, "missing", some ErrNotFound, 404⟩,
      ⟨1, "denied", some ErrForbidden, 403⟩]⟩) (some ErrForbidden) = false ∧
    IsRootOfKind (.stackVal ⟨[⟨0, "missing", some ErrNotFound, 404⟩,
      ⟨1, "denied", some ErrForbidden, 403⟩]⟩) (some ErrNotFound) = false ∧
    Ctor.run .Update (.stackVal ⟨[⟨0, "missing", some ErrNotFound, 404⟩,
        ⟨1, "denied", some ErrForbidden, 403⟩]⟩) []
      = some ⟨[⟨0, "denied", some ErrUpdate, 500⟩]⟩ :=
  have hw := C18_stack_by_value_is_a_plain_error
    ⟨[⟨0, "missing", some ErrNotFound, 404⟩, ⟨1, "denied", some ErrForbidden, 403⟩]⟩
    ⟨1, "denied", some ErrForbidden, 403⟩ rfl
  ⟨rfl, (hw.1 (some ErrForbidden)).1, (hw.1 (some ErrNotFound)).2, (hw.2.1 .Update).1⟩

end Errors
